import Mathlib

/-!
Verification of the HMM heap memory manager (`src/HMM_Reduced/hmm_reduced.c`).

The allocator state is shallowly embedded: the simulated heap array is
modelled as a map from byte offsets to block headers (only header structs are
ever read or written by the allocator itself), the simulated program break is
a byte offset into the arena, and `free_list` is an optional head offset.
All `size_t` and `uintptr_t` arithmetic of the C source — including the
out-of-memory comparison and the break advance of heap growth — is carried
out modulo `2 ^ 64` (`wadd` / `wsub`); address computations are byte offsets
from the start of the static `heap` array, whose base is taken as offset 0.

One caveat scopes every theorem of this file: the header map stores a whole
24-byte `BlockHeader` per offset, so two header writes alias only when made
at the *same* offset.  It therefore agrees with the byte-level C heap
exactly on those runs in which any two headers that are written and later
read occupy pairwise disjoint 24-byte ranges.  Statements about runs in
which the source writes byte-overlapping headers (reachable with
near-`SIZE_MAX` requests) are confined to fields whose bytes the overlap
does not touch, and the invariant-based theorems restrict requests to the
arena size, a regime in which all tracked headers sit in pairwise disjoint
block footprints.
-/

namespace HMM

/-- `HEAP_SIZE` from the source: 1 MiB simulated arena. -/
def HEAP_SIZE : Nat := 1024 * 1024

/-- `sizeof(size_t)` on the 64-bit target: the native word size. -/
def WORD : Nat := 8

/-- `sizeof(BlockHeader)` on the 64-bit target: `size_t` + pointer + padded `int`. -/
def HEADER_SIZE : Nat := 24

/-- Modulus of 64-bit `size_t` / pointer arithmetic. -/
def M64 : Nat := 2 ^ 64

/-- Wrapping 64-bit addition, as performed on `size_t` operands. -/
def wadd (a b : Nat) : Nat := (a + b) % M64

/-- Wrapping 64-bit subtraction, as performed on `size_t` operands. -/
def wsub (a b : Nat) : Nat := (a % M64 + (M64 - b % M64)) % M64

/-- `ALIGN(x) = ((x) + sizeof(size_t) - 1) & ~(sizeof(size_t) - 1)` over `size_t`. -/
def ALIGN (x : Nat) : Nat := Nat.land ((x + (WORD - 1)) % M64) (M64 - WORD)

/-- `MIN_BLOCK_SIZE = HEADER_SIZE + ALIGN(sizeof(size_t))`. -/
def MIN_BLOCK_SIZE : Nat := HEADER_SIZE + ALIGN WORD

/-- The `BlockHeader` struct: payload size, free-list link (an optional
byte offset standing for the `next` pointer, `none` = `NULL`), and the
`free` flag (`int` used as a boolean in the source). -/
structure BlockHeader where
  size : Nat
  next : Option Nat
  free : Bool
deriving DecidableEq

/-- The allocator's mutable state: header contents at every byte offset of
the arena (offsets never written hold the zero-initialised static image),
the simulated program break, and the free-list head. -/
structure HeapState where
  mem : Nat → BlockHeader
  brk : Nat
  freeList : Option Nat

/-- The zero-initialised static heap image. -/
def initHeader : BlockHeader := ⟨0, none, false⟩

/-- Initial state: `program_break = heap`, `free_list = NULL`. -/
def initState : HeapState := ⟨fun _ => initHeader, 0, none⟩

/-- Store a header at a byte offset.  The cell at each offset is a whole
24-byte struct: writes at different offsets never alias, which matches the
source's struct writes only while the headers involved occupy disjoint
byte ranges (see the module comment). -/
def setHeader (st : HeapState) (off : Nat) (h : BlockHeader) : HeapState :=
  { st with mem := fun o => if o = off then h else st.mem o }

/-- `add_to_free_list`: head insertion (`block->next = free_list; free_list = block`). -/
def add_to_free_list (st : HeapState) (b : Nat) : HeapState :=
  let st1 := setHeader st b { st.mem b with next := st.freeList }
  { st1 with freeList := some b }

/-- `split_block(block, size)`: if the block can hold the request, a header
plus one aligned word, carve a new free block at `block + HEADER_SIZE + size`,
link both headers, and head-insert the remainder into the free list. -/
def split_block (st : HeapState) (b : Nat) (size : Nat) : HeapState :=
  if wadd (wadd size HEADER_SIZE) WORD ≤ (st.mem b).size then
    let nb := wadd (wadd b HEADER_SIZE) size
    let st1 := setHeader st nb
      ⟨wsub (wsub ((st.mem b).size) size) HEADER_SIZE, (st.mem b).next, true⟩
    let st2 := setHeader st1 b ⟨size, some nb, (st1.mem b).free⟩
    add_to_free_list st2 nb
  else st

/-- Unlinking of a hit block inside `find_free_block`: either repoint the
predecessor's `next` or update the list head. -/
def unlink (st : HeapState) (prev : Option Nat) (b : Nat) : HeapState :=
  match prev with
  | some p => setHeader st p { st.mem p with next := (st.mem b).next }
  | none => { st with freeList := (st.mem b).next }

/-- The heap-growth tail of `find_free_block` (lines 106-131): compute an
amortising chunk size, fail if the break would pass the arena end, otherwise
carve a fresh allocated block at the break, advance the break, and optionally
split off the surplus.  The out-of-memory comparison
`(uintptr_t)program_break + chunk_size > (uintptr_t)heap + HEAP_SIZE`
(line 109) and the break advance (line 123) are 64-bit pointer arithmetic
and wrap modulo `2^64`, so both are modelled with `wadd` on the break
offset (the heap base is offset 0). -/
def grow_heap (st : HeapState) (size : Nat) : Option Nat × HeapState :=
  let chunk_size := if wadd size HEADER_SIZE < 1024 * 16 then 1024 * 16 else wadd size HEADER_SIZE
  if HEAP_SIZE < wadd st.brk chunk_size then (none, st)
  else
    let nb := st.brk
    let st1 := setHeader st nb ⟨wsub chunk_size HEADER_SIZE, none, false⟩
    let st2 := { st1 with brk := wadd st1.brk chunk_size }
    let st3 := if wadd size MIN_BLOCK_SIZE < (st2.mem nb).size then split_block st2 nb size
               else st2
    (some nb, st3)

/-- The first-fit scan of `find_free_block` (lines 86-104), with explicit
fuel standing for the (finite) length of a well-formed free list: take the
first free block large enough, unlink it, split it, and return it; on a
miss, fall through to heap growth. -/
def find_scan (size : Nat) : Nat → HeapState → Option Nat → Option Nat → Option Nat × HeapState
  | 0, st, _, _ => (none, st)
  | fuel + 1, st, prev, cur =>
    match cur with
    | none => grow_heap st size
    | some c =>
      if (st.mem c).free = true ∧ size ≤ (st.mem c).size then
        (some c, split_block (unlink st prev c) c size)
      else
        find_scan size fuel st (some c) ((st.mem c).next)

/-- Fuel bound used by the top-level entry points; a well-formed free list
holds at most `HEAP_SIZE` blocks, and no loop of the source makes more than
two iterations per block. -/
def FUEL : Nat := 2 * HEAP_SIZE + 2

/-- `find_free_block(size)`. -/
def find_free_block (st : HeapState) (size : Nat) : Option Nat × HeapState :=
  find_scan size FUEL st none st.freeList

/-- `HmmAlloc(size)`: zero-size guard, word alignment, first-fit search with
growth fallback, then mark the block allocated and return its payload offset. -/
def HmmAlloc (st : HeapState) (size : Nat) : Option Nat × HeapState :=
  if size = 0 then (none, st)
  else
    let sz := ALIGN size
    let r := find_free_block st sz
    match r.1 with
    | none => (none, r.2)
    | some b => (some (b + HEADER_SIZE), setHeader r.2 b { r.2.mem b with free := false })

/-- The `merge_free_blocks` loop with explicit fuel: for each list-adjacent
pair, if both blocks are free, absorb the successor into the current block
(`current->size += current->next->size + HEADER_SIZE`) and unlink it,
otherwise advance. -/
def merge_loop : Nat → HeapState → Option Nat → HeapState
  | 0, st, _ => st
  | fuel + 1, st, cur =>
    match cur with
    | none => st
    | some c =>
      match (st.mem c).next with
      | none => st
      | some n =>
        if (st.mem c).free = true ∧ (st.mem n).free = true then
          merge_loop fuel
            (setHeader st c
              ⟨wadd (st.mem c).size (wadd (st.mem n).size HEADER_SIZE),
               (st.mem n).next, (st.mem c).free⟩)
            (some c)
        else
          merge_loop fuel st (some n)

/-- `merge_free_blocks()`. -/
def merge_free_blocks (st : HeapState) : HeapState := merge_loop FUEL st st.freeList

/-- `HmmFree(ptr)`: `NULL` is a no-op; otherwise recover the header, mark it
free, head-insert it into the free list, and run the merger. -/
def HmmFree (st : HeapState) (ptr : Option Nat) : HeapState :=
  match ptr with
  | none => st
  | some p =>
    let b := p - HEADER_SIZE
    let st1 := setHeader st b { st.mem b with free := true }
    let st2 := add_to_free_list st1 b
    merge_free_blocks st2

/-- Structure of the free list as seen by the traversals: the chain of
offsets reached from a head pointer by following `next` links.  A finite
derivation exists exactly when the list is acyclic. -/
inductive ChainOk (st : HeapState) : Option Nat → List Nat → Prop
  | nil : ChainOk st none []
  | cons {b : Nat} {L : List Nat} :
      ChainOk st ((st.mem b).next) L → ChainOk st (some b) (b :: L)

/-! ### Arithmetic bridges: wrapping operations agree with plain arithmetic
below the modulus -/

theorem M64_pos : 0 < M64 := by norm_num [M64]

theorem wadd_eq {a b : Nat} (h : a + b < M64) : wadd a b = a + b := by
  simp [wadd, Nat.mod_eq_of_lt h]

theorem wsub_eq {a b : Nat} (ha : a < M64) (h : b ≤ a) : wsub a b = a - b := by
  have hb : b < M64 := lt_of_le_of_lt h ha
  have h1 : a % M64 = a := Nat.mod_eq_of_lt ha
  have h2 : b % M64 = b := Nat.mod_eq_of_lt hb
  have h3 : a % M64 + (M64 - b % M64) = (a - b) + M64 := by omega
  rw [wsub, h3, Nat.add_mod_right, Nat.mod_eq_of_lt (by omega)]

theorem land_mask {y : Nat} (hy : y < M64) :
    Nat.land y (M64 - WORD) = y / 8 * 8 := by
  have hmask : M64 - WORD = (2 ^ 61 - 1) <<< 3 := by
    norm_num [M64, WORD, Nat.shiftLeft_eq]
  have hdiv : y / 8 * 8 = (y >>> 3) <<< 3 := by
    rw [Nat.shiftRight_eq_div_pow, Nat.shiftLeft_eq]
  apply Nat.eq_of_testBit_eq
  intro i
  rw [show Nat.land y (M64 - WORD) = y &&& (M64 - WORD) from rfl,
    Nat.testBit_land, hmask, hdiv, Nat.testBit_shiftLeft, Nat.testBit_shiftLeft,
    Nat.testBit_shiftRight, Nat.testBit_two_pow_sub_one]
  by_cases h3 : 3 ≤ i
  · by_cases h64 : i < 64
    · have : 3 + (i - 3) = i := by omega
      simp [ge_iff_le, h3, this, show i - 3 < 61 by omega]
    · have hyi : y.testBit i = false :=
        Nat.testBit_lt_two_pow (lt_of_lt_of_le hy (Nat.pow_le_pow_right (by norm_num) (by omega)))
      have h33 : 3 + (i - 3) = i := by omega
      simp [hyi, h33]
  · simp [ge_iff_le, h3]

theorem align_eq {x : Nat} (h : x + 7 < M64) : ALIGN x = (x + 7) / 8 * 8 := by
  have h7 : x + (WORD - 1) = x + 7 := by norm_num [WORD]
  rw [ALIGN, h7, Nat.mod_eq_of_lt h, land_mask (by omega)]

theorem align_ge {x : Nat} (h : x + 7 < M64) : x ≤ ALIGN x := by
  rw [align_eq h]
  have := Nat.div_add_mod (x + 7) 8
  have : (x + 7) % 8 < 8 := Nat.mod_lt _ (by norm_num)
  omega

theorem align_le {x : Nat} (h : x + 7 < M64) : ALIGN x ≤ x + 7 := by
  rw [align_eq h]
  have := Nat.div_add_mod (x + 7) 8
  omega

theorem align_le_of_le {x c : Nat} (hx : x ≤ 8 * c) (hc : 8 * c + 7 < M64) :
    ALIGN x ≤ 8 * c := by
  rw [align_eq (by omega)]
  have h1 : (x + 7) / 8 ≤ (8 * c + 7) / 8 := Nat.div_le_div_right (by omega)
  have h2 : (8 * c + 7) / 8 = c := by omega
  omega

theorem align_pos {x : Nat} (hx : 1 ≤ x) (h : x + 7 < M64) : 8 ≤ ALIGN x := by
  have := align_ge h
  have h8 : ALIGN x = (x + 7) / 8 * 8 := align_eq h
  have : 1 ≤ (x + 7) / 8 := by
    have : 8 ≤ x + 7 := by omega
    omega
  omega

/-! ### Basic state update lemmas -/

theorem setHeader_mem_self (st : HeapState) (off : Nat) (h : BlockHeader) :
    (setHeader st off h).mem off = h := by simp [setHeader]

theorem setHeader_mem_ne (st : HeapState) (off : Nat) (h : BlockHeader) {x : Nat}
    (hx : x ≠ off) : (setHeader st off h).mem x = st.mem x := by simp [setHeader, hx]

theorem setHeader_brk (st : HeapState) (off : Nat) (h : BlockHeader) :
    (setHeader st off h).brk = st.brk := rfl

theorem setHeader_freeList (st : HeapState) (off : Nat) (h : BlockHeader) :
    (setHeader st off h).freeList = st.freeList := rfl

theorem add_to_free_list_brk (st : HeapState) (b : Nat) :
    (add_to_free_list st b).brk = st.brk := rfl

theorem add_to_free_list_freeList (st : HeapState) (b : Nat) :
    (add_to_free_list st b).freeList = some b := rfl

theorem add_to_free_list_mem_self (st : HeapState) (b : Nat) :
    (add_to_free_list st b).mem b = { st.mem b with next := st.freeList } := by
  simp [add_to_free_list, setHeader]

theorem add_to_free_list_mem_ne (st : HeapState) (b : Nat) {x : Nat} (hx : x ≠ b) :
    (add_to_free_list st b).mem x = st.mem x := by
  simp [add_to_free_list, setHeader, hx]

theorem split_block_brk (st : HeapState) (b s : Nat) :
    (split_block st b s).brk = st.brk := by
  unfold split_block
  by_cases h : wadd (wadd s HEADER_SIZE) WORD ≤ (st.mem b).size
  · rw [if_pos h]; rfl
  · rw [if_neg h]

theorem MIN_BLOCK_SIZE_eq : MIN_BLOCK_SIZE = 32 := by
  have h8 : ALIGN WORD = 8 := by
    have : ALIGN 8 = (8 + 7) / 8 * 8 := align_eq (by norm_num [M64])
    simpa [WORD] using this
  simp [MIN_BLOCK_SIZE, h8, HEADER_SIZE]

theorem unlink_brk (st : HeapState) (prev : Option Nat) (b : Nat) :
    (unlink st prev b).brk = st.brk := by
  cases prev <;> rfl

theorem merge_loop_brk (fuel : Nat) (st : HeapState) (cur : Option Nat) :
    (merge_loop fuel st cur).brk = st.brk := by
  induction fuel generalizing st cur with
  | zero => rfl
  | succ fuel ih =>
    unfold merge_loop
    cases cur with
    | none => rfl
    | some c =>
      cases hnx : (st.mem c).next with
      | none => simp [hnx]
      | some n =>
        by_cases hf : (st.mem c).free = true ∧ (st.mem n).free = true <;>
          simp [hnx, hf, ih, setHeader]

theorem merge_loop_freeList (fuel : Nat) (st : HeapState) (cur : Option Nat) :
    (merge_loop fuel st cur).freeList = st.freeList := by
  induction fuel generalizing st cur with
  | zero => rfl
  | succ fuel ih =>
    unfold merge_loop
    cases cur with
    | none => rfl
    | some c =>
      cases hnx : (st.mem c).next with
      | none => simp [hnx]
      | some n =>
        by_cases hf : (st.mem c).free = true ∧ (st.mem n).free = true <;>
          simp [hnx, hf, ih, setHeader]

theorem merge_free_blocks_brk (st : HeapState) :
    (merge_free_blocks st).brk = st.brk := merge_loop_brk _ _ _

theorem HmmFree_brk (st : HeapState) (p : Option Nat) :
    (HmmFree st p).brk = st.brk := by
  cases p with
  | none => rfl
  | some q => simp [HmmFree, merge_free_blocks_brk, add_to_free_list_brk, setHeader_brk]

/-! ### Chain structure lemmas -/

theorem chain_frame {st st' : HeapState} {cur : Option Nat} {L : List Nat}
    (hmem : ∀ x ∈ L, st'.mem x = st.mem x) (h : ChainOk st cur L) :
    ChainOk st' cur L := by
  induction h with
  | nil => exact ChainOk.nil
  | @cons b L' hL ih =>
    have hb : st'.mem b = st.mem b := hmem b (List.mem_cons_self _ _)
    refine ChainOk.cons ?_
    rw [hb]
    exact ih fun x hx => hmem x (List.mem_cons_of_mem _ hx)

theorem chain_cons_inv {st : HeapState} {cur : Option Nat} {b : Nat} {L : List Nat}
    (h : ChainOk st cur (b :: L)) :
    cur = some b ∧ ChainOk st ((st.mem b).next) L := by
  cases h with
  | cons hL => exact ⟨rfl, hL⟩

theorem chain_deterministic {st : HeapState} {cur : Option Nat} {L1 L2 : List Nat}
    (h1 : ChainOk st cur L1) (h2 : ChainOk st cur L2) : L1 = L2 := by
  induction h1 generalizing L2 with
  | nil => cases h2; rfl
  | cons hL ih =>
    cases h2 with
    | cons hL' => rw [ih hL']

theorem chain_nodup_length_le {L : List Nat} {N : Nat} (hnd : L.Nodup)
    (hlt : ∀ x ∈ L, x < N) : L.length ≤ N := by
  have h1 : L.toFinset.card = L.length := List.toFinset_card_of_nodup hnd
  have h2 : L.toFinset ⊆ Finset.range N := by
    intro x hx
    simp only [List.mem_toFinset] at hx
    exact Finset.mem_range.mpr (hlt x hx)
  have := Finset.card_le_card h2
  simp only [Finset.card_range] at this
  omega

/-! ### Step lemmas for the fueled loops -/

theorem find_scan_succ_none (req f : Nat) (st : HeapState) (prev : Option Nat) :
    find_scan req (f + 1) st prev none = grow_heap st req := rfl

theorem find_scan_succ_hit {req : Nat} {st : HeapState} {c : Nat}
    (h : (st.mem c).free = true ∧ req ≤ (st.mem c).size) (f : Nat) (prev : Option Nat) :
    find_scan req (f + 1) st prev (some c) =
      (some c, split_block (unlink st prev c) c req) := if_pos h

theorem find_scan_succ_skip {req : Nat} {st : HeapState} {c : Nat}
    (h : ¬((st.mem c).free = true ∧ req ≤ (st.mem c).size)) (f : Nat) (prev : Option Nat) :
    find_scan req (f + 1) st prev (some c) =
      find_scan req f st (some c) ((st.mem c).next) := if_neg h

theorem merge_loop_succ_none (f : Nat) (st : HeapState) :
    merge_loop (f + 1) st none = st := rfl

theorem merge_loop_succ_last {st : HeapState} {c : Nat} (h : (st.mem c).next = none)
    (f : Nat) : merge_loop (f + 1) st (some c) = st := by
  simp only [merge_loop, h]

theorem merge_loop_succ_merge {st : HeapState} {c n : Nat} (hnx : (st.mem c).next = some n)
    (h : (st.mem c).free = true ∧ (st.mem n).free = true) (f : Nat) :
    merge_loop (f + 1) st (some c) =
      merge_loop f
        (setHeader st c
          ⟨wadd (st.mem c).size (wadd (st.mem n).size HEADER_SIZE),
           (st.mem n).next, (st.mem c).free⟩)
        (some c) := by
  simp only [merge_loop, hnx]
  exact if_pos h

theorem merge_loop_succ_skip {st : HeapState} {c n : Nat} (hnx : (st.mem c).next = some n)
    (h : ¬((st.mem c).free = true ∧ (st.mem n).free = true)) (f : Nat) :
    merge_loop (f + 1) st (some c) = merge_loop f st (some n) := by
  simp only [merge_loop, hnx]
  exact if_neg h

/-! ### First-fit scan characterization -/

/-- The predecessor tracked by the scan once it has walked over the list
segment `M`: the last element of `M`, or the incoming `prev` when `M` is empty. -/
def lastOr (prev : Option Nat) : List Nat → Option Nat
  | [] => prev
  | m :: M => lastOr (some m) M

theorem lastOr_nil (prev : Option Nat) : lastOr prev [] = prev := rfl

theorem lastOr_ne_nil {M : List Nat} (hM : M ≠ []) (prev : Option Nat) :
    lastOr prev M = M.getLast? := by
  induction M generalizing prev with
  | nil => exact absurd rfl hM
  | cons m M ih =>
    cases M with
    | nil => rfl
    | cons m' M' =>
      show lastOr (some m) (m' :: M') = _
      rw [ih (by simp) (some m), List.getLast?_cons_cons]

theorem lastOr_none (M : List Nat) : lastOr none M = M.getLast? := by
  cases M with
  | nil => rfl
  | cons m M' => exact lastOr_ne_nil (by simp) none

theorem mem_of_getLast?_eq {M : List Nat} {p : Nat} (hp : M.getLast? = some p) :
    p ∈ M := by
  cases M with
  | nil => simp at hp
  | cons m M' =>
    rw [List.getLast?_eq_getLast _ (by simp)] at hp
    have hmem := @List.getLast_mem _ (m :: M') (by simp)
    have hpe := Option.some.inj hp
    rw [← hpe]
    exact hmem

theorem find_scan_miss {st : HeapState} {req : Nat} {cur : Option Nat} {L : List Nat}
    (hC : ChainOk st cur L) :
    ∀ (fuel : Nat) (prev : Option Nat),
      (∀ x ∈ L, ¬((st.mem x).free = true ∧ req ≤ (st.mem x).size)) →
      L.length < fuel →
      find_scan req fuel st prev cur = grow_heap st req := by
  induction hC with
  | nil =>
    intro fuel prev _ hfuel
    cases fuel with
    | zero => omega
    | succ f => rfl
  | @cons b L' hL ih =>
    intro fuel prev hmiss hfuel
    cases fuel with
    | zero => simp at hfuel
    | succ f =>
      rw [find_scan_succ_skip (hmiss b (List.mem_cons_self _ _)) f prev]
      exact ih f (some b) (fun x hx => hmiss x (List.mem_cons_of_mem _ hx))
        (by simp at hfuel; omega)

theorem find_scan_hit {st : HeapState} {req : Nat} {b : Nat} {R : List Nat}
    (hqual : (st.mem b).free = true ∧ req ≤ (st.mem b).size) :
    ∀ (M : List Nat) (fuel : Nat) (prev : Option Nat) (cur : Option Nat),
      ChainOk st cur (M ++ b :: R) →
      (∀ x ∈ M, ¬((st.mem x).free = true ∧ req ≤ (st.mem x).size)) →
      M.length < fuel →
      find_scan req fuel st prev cur =
        (some b, split_block (unlink st (lastOr prev M) b) b req) := by
  intro M
  induction M with
  | nil =>
    intro fuel prev cur hC _ hfuel
    cases fuel with
    | zero => omega
    | succ f =>
      cases hC with
      | cons hL => exact find_scan_succ_hit hqual f prev
  | cons m M ih =>
    intro fuel prev cur hC hmiss hfuel
    cases fuel with
    | zero => simp at hfuel
    | succ f =>
      cases hC with
      | cons hL =>
        rw [find_scan_succ_skip (hmiss m (List.mem_cons_self _ _)) f prev]
        exact ih f (some m) _ hL (fun x hx => hmiss x (List.mem_cons_of_mem _ hx))
          (by simp at hfuel; omega)

/-! ### Effect of unlinking on the chain -/

theorem unlink_mid_chain {st : HeapState} {b : Nat} {R : List Nat} :
    ∀ (M : List Nat) (p : Nat) (cur : Option Nat),
      M.getLast? = some p →
      ChainOk st cur (M ++ b :: R) →
      (M ++ b :: R).Nodup →
      ChainOk (setHeader st p { st.mem p with next := (st.mem b).next }) cur (M ++ R) := by
  intro M
  induction M with
  | nil => intro p cur hp; simp at hp
  | cons m M ih =>
    intro p cur hp hC hnd
    obtain ⟨hcur, hL⟩ := chain_cons_inv hC
    subst hcur
    cases M with
    | nil =>
      -- the predecessor is `m` itself
      have hpm : p = m := by simpa using hp.symm
      subst hpm
      obtain ⟨hnx, hR⟩ := chain_cons_inv hL
      refine ChainOk.cons ?_
      rw [setHeader_mem_self]
      show ChainOk _ ((st.mem b).next) R
      refine chain_frame ?_ hR
      intro x hx
      have hxm : x ≠ p := by
        intro hxe; subst hxe
        simp at hnd
        exact hnd.1.2 hx
      exact setHeader_mem_ne st p _ hxm
    | cons m' M' =>
      have hp' : (m' :: M').getLast? = some p := by
        rw [List.getLast?_cons_cons] at hp
        exact hp
      have hnd2 : (m :: ((m' :: M') ++ b :: R)).Nodup := hnd
      have hnd' : ((m' :: M') ++ b :: R).Nodup := hnd2.of_cons
      have hmn : m ∉ (m' :: M') ++ b :: R := (List.nodup_cons.mp hnd2).1
      have hmp : m ≠ p := by
        intro he
        have hmem : p ∈ m' :: M' := mem_of_getLast?_eq hp'
        exact hmn (he ▸ List.mem_append_left _ hmem)
      refine ChainOk.cons ?_
      rw [setHeader_mem_ne st _ _ hmp]
      exact ih p _ hp' hL hnd'

theorem unlink_chain {st : HeapState} {M R : List Nat} {b : Nat}
    (hC : ChainOk st st.freeList (M ++ b :: R)) (hnd : (M ++ b :: R).Nodup) :
    ChainOk (unlink st (lastOr none M) b)
      (unlink st (lastOr none M) b).freeList (M ++ R) := by
  rw [lastOr_none]
  cases hp : M.getLast? with
  | none =>
    have hM : M = [] := by
      cases M with
      | nil => rfl
      | cons m M' => rw [List.getLast?_eq_getLast _ (by simp)] at hp; exact absurd hp (by simp)
    subst hM
    simp only [List.nil_append] at hC ⊢
    obtain ⟨hcur, hR⟩ := chain_cons_inv hC
    show ChainOk { st with freeList := (st.mem b).next } ((st.mem b).next) R
    refine chain_frame ?_ hR
    intro x hx
    rfl
  | some p =>
    show ChainOk (setHeader st p _) st.freeList (M ++ R)
    exact unlink_mid_chain M p st.freeList hp hC hnd

theorem unlink_mem_of_not_mem {st : HeapState} {M : List Nat} {b x : Nat}
    (hx : x ∉ M) : (unlink st (lastOr none M) b).mem x = st.mem x := by
  rw [lastOr_none]
  cases hp : M.getLast? with
  | none => rfl
  | some p =>
    have hne : x ≠ p := fun he => hx (he ▸ mem_of_getLast?_eq hp)
    exact setHeader_mem_ne st _ _ hne

theorem unlink_size_free (st : HeapState) (prev : Option Nat) (b x : Nat) :
    ((unlink st prev b).mem x).size = (st.mem x).size ∧
    ((unlink st prev b).mem x).free = (st.mem x).free := by
  cases prev with
  | none => exact ⟨rfl, rfl⟩
  | some p =>
    show ((setHeader st p _).mem x).size = _ ∧ ((setHeader st p _).mem x).free = _
    by_cases hx : x = p
    · subst hx
      rw [setHeader_mem_self]
      exact ⟨rfl, rfl⟩
    · rw [setHeader_mem_ne st _ _ hx]
      exact ⟨rfl, rfl⟩

/-! ### Characterization of `split_block` below the wrapping threshold -/

theorem split_spec_neg {st : HeapState} {b req : Nat}
    (hreq : req + HEADER_SIZE + WORD < M64)
    (hlt : (st.mem b).size < req + HEADER_SIZE + WORD) :
    split_block st b req = st := by
  have h1 : wadd req HEADER_SIZE = req + HEADER_SIZE := wadd_eq (by omega)
  have h2 : wadd (wadd req HEADER_SIZE) WORD = req + HEADER_SIZE + WORD := by
    rw [h1]; exact wadd_eq hreq
  unfold split_block
  rw [h2, if_neg (by omega)]

theorem split_spec_pos {st : HeapState} {b req : Nat}
    (hb : (st.mem b).size < M64)
    (hreq : req + HEADER_SIZE + WORD < M64)
    (hnb : b + HEADER_SIZE + req < M64)
    (hge : req + HEADER_SIZE + WORD ≤ (st.mem b).size) :
    split_block st b req =
      add_to_free_list
        (setHeader
          (setHeader st (b + HEADER_SIZE + req)
            ⟨(st.mem b).size - req - HEADER_SIZE, (st.mem b).next, true⟩)
          b ⟨req, some (b + HEADER_SIZE + req), (st.mem b).free⟩)
        (b + HEADER_SIZE + req) := by
  have h1 : wadd req HEADER_SIZE = req + HEADER_SIZE := wadd_eq (by omega)
  have h2 : wadd (wadd req HEADER_SIZE) WORD = req + HEADER_SIZE + WORD := by
    rw [h1]; exact wadd_eq hreq
  have h3a : wadd b HEADER_SIZE = b + HEADER_SIZE := wadd_eq (by omega)
  have h3 : wadd (wadd b HEADER_SIZE) req = b + HEADER_SIZE + req := by
    rw [h3a]; exact wadd_eq hnb
  have h4 : wsub (wsub ((st.mem b).size) req) HEADER_SIZE =
      (st.mem b).size - req - HEADER_SIZE := by
    rw [wsub_eq hb (by omega)]
    exact wsub_eq (by omega) (by omega)
  have hne : b ≠ b + HEADER_SIZE + req := by
    have : 0 < HEADER_SIZE := by norm_num [HEADER_SIZE]
    omega
  unfold split_block
  rw [h2, if_pos hge, h3, h4]
  dsimp only
  rw [setHeader_mem_ne st (b + HEADER_SIZE + req) _ hne]

/-- Observable effect of a successful split: remainder header written at
`b + HEADER_SIZE + req` and head-inserted, original truncated to `req`. -/
theorem split_effect {st : HeapState} {b req : Nat}
    (hb : (st.mem b).size < M64)
    (hreq : req + HEADER_SIZE + WORD < M64)
    (hnb : b + HEADER_SIZE + req < M64)
    (hge : req + HEADER_SIZE + WORD ≤ (st.mem b).size) :
    (split_block st b req).freeList = some (b + HEADER_SIZE + req) ∧
    (split_block st b req).mem (b + HEADER_SIZE + req) =
      ⟨(st.mem b).size - req - HEADER_SIZE, st.freeList, true⟩ ∧
    (split_block st b req).mem b = ⟨req, some (b + HEADER_SIZE + req), (st.mem b).free⟩ ∧
    (∀ x, x ≠ b → x ≠ b + HEADER_SIZE + req → (split_block st b req).mem x = st.mem x) := by
  have hne : b ≠ b + HEADER_SIZE + req := by
    have : 0 < HEADER_SIZE := by norm_num [HEADER_SIZE]
    omega
  rw [split_spec_pos hb hreq hnb hge]
  refine ⟨add_to_free_list_freeList _ _, ?_, ?_, ?_⟩
  · rw [add_to_free_list_mem_self]
    rw [setHeader_mem_ne _ _ _ (Ne.symm hne), setHeader_mem_self, setHeader_freeList,
      setHeader_freeList]
  · rw [add_to_free_list_mem_ne _ _ hne, setHeader_mem_self]
  · intro x hxb hxnb
    rw [add_to_free_list_mem_ne _ _ hxnb, setHeader_mem_ne _ _ _ hxb,
      setHeader_mem_ne _ _ _ hxnb]

/-! ### Merger refinement -/

theorem chain_nil_inv {st : HeapState} {cur : Option Nat} (h : ChainOk st cur []) :
    cur = none := by
  cases h; rfl

/-- Record view of a chain: one `(offset, size, free)` triple per block, in
list order. -/
def recsOf (st : HeapState) (L : List Nat) : List (Nat × Nat × Bool) :=
  L.map fun b => (b, (st.mem b).size, (st.mem b).free)

/-- Modelled from the spec (§4.5, the claim's wording): a single forward pass
in list order; for each adjacent pair, if both blocks are free, absorb the
successor into the current block (`current.size + current.next.size +
header_size`, exact arithmetic) and unlink it, otherwise advance. -/
def merge_pass : List (Nat × Nat × Bool) → List (Nat × Nat × Bool)
  | [] => []
  | [x] => [x]
  | x :: y :: rest =>
    if x.2.2 = true ∧ y.2.2 = true then
      merge_pass ((x.1, x.2.1 + y.2.1 + HEADER_SIZE, x.2.2) :: rest)
    else
      x :: merge_pass (y :: rest)
termination_by l => l.length

/-- Total footprint of a record list, used to rule out size wrap-around. -/
def sumBlocks (l : List (Nat × Nat × Bool)) : Nat :=
  (l.map fun x => x.2.1 + HEADER_SIZE).sum

theorem recsOf_cons (st : HeapState) (c : Nat) (L : List Nat) :
    recsOf st (c :: L) = (c, (st.mem c).size, (st.mem c).free) :: recsOf st L := rfl

theorem sumBlocks_cons (x : Nat × Nat × Bool) (l : List (Nat × Nat × Bool)) :
    sumBlocks (x :: l) = x.2.1 + HEADER_SIZE + sumBlocks l := by
  simp [sumBlocks]

theorem recsOf_frame {st st' : HeapState} {L : List Nat}
    (h : ∀ x ∈ L, st'.mem x = st.mem x) : recsOf st' L = recsOf st L := by
  unfold recsOf
  exact List.map_congr_left fun b hb => by rw [h b hb]

theorem sumBlocks_recsOf_cons (st : HeapState) (c : Nat) (L : List Nat) :
    sumBlocks (recsOf st (c :: L)) =
      (st.mem c).size + HEADER_SIZE + sumBlocks (recsOf st L) := by
  simp [recsOf, sumBlocks]

theorem merge_loop_spec :
    ∀ (L : List Nat) (fuel : Nat) (st : HeapState) (c : Nat),
      ChainOk st (some c) (c :: L) →
      (c :: L).Nodup →
      sumBlocks (recsOf st (c :: L)) < M64 →
      2 * (c :: L).length ≤ fuel →
      ∃ M : List Nat,
        recsOf (merge_loop fuel st (some c)) M = merge_pass (recsOf st (c :: L)) ∧
        ChainOk (merge_loop fuel st (some c)) (some c) M ∧
        (∀ x, x ∉ c :: L → (merge_loop fuel st (some c)).mem x = st.mem x) ∧
        M.head? = some c := by
  intro L
  induction L with
  | nil =>
    intro fuel st c hC hnd hsum hfuel
    obtain ⟨-, hnx⟩ := chain_cons_inv hC
    have hnone : (st.mem c).next = none := chain_nil_inv hnx
    simp only [List.length_cons, List.length_nil] at hfuel
    obtain ⟨f, rfl⟩ : ∃ f, fuel = f + 1 := ⟨fuel - 1, by omega⟩
    rw [merge_loop_succ_last hnone]
    refine ⟨[c], ?_, ChainOk.cons (by rw [hnone]; exact ChainOk.nil), fun x _ => rfl, rfl⟩
    show recsOf st [c] = merge_pass (recsOf st [c])
    rw [show recsOf st [c] = [(c, (st.mem c).size, (st.mem c).free)] from rfl]
    rw [merge_pass]
  | cons n rest ih =>
    intro fuel st c hC hnd hsum hfuel
    obtain ⟨-, hnx⟩ := chain_cons_inv hC
    obtain ⟨hcn, htl⟩ := chain_cons_inv hnx
    simp only [List.length_cons] at hfuel
    obtain ⟨f, rfl⟩ : ∃ f, fuel = f + 1 := ⟨fuel - 1, by omega⟩
    have hcnotn : c ∉ n :: rest := (List.nodup_cons.mp hnd).1
    have hnnotrest : n ∉ rest := (List.nodup_cons.mp (List.nodup_cons.mp hnd).2).1
    by_cases hfree : (st.mem c).free = true ∧ (st.mem n).free = true
    · -- absorb `n` into `c` and stay
      rw [merge_loop_succ_merge hcn hfree]
      set st1 := setHeader st c
        ⟨wadd (st.mem c).size (wadd (st.mem n).size HEADER_SIZE),
         (st.mem n).next, (st.mem c).free⟩ with hst1
      have hframe1 : ∀ x ∈ rest, st1.mem x = st.mem x := by
        intro x hx
        exact setHeader_mem_ne st c _ (fun he => hcnotn (he ▸ List.mem_cons_of_mem _ hx))
      have hsumle : (st.mem c).size + HEADER_SIZE +
          ((st.mem n).size + HEADER_SIZE + sumBlocks (recsOf st rest)) < M64 := by
        rw [sumBlocks_recsOf_cons, sumBlocks_recsOf_cons] at hsum
        omega
      have hw1 : wadd (st.mem n).size HEADER_SIZE = (st.mem n).size + HEADER_SIZE :=
        wadd_eq (by omega)
      have hwadd : wadd (st.mem c).size (wadd (st.mem n).size HEADER_SIZE) =
          (st.mem c).size + (st.mem n).size + HEADER_SIZE := by
        rw [hw1, wadd_eq (by omega)]
        omega
      have hC1 : ChainOk st1 (some c) (c :: rest) := by
        refine ChainOk.cons ?_
        have : (st1.mem c).next = (st.mem n).next := by
          rw [hst1, setHeader_mem_self]
        rw [this]
        exact chain_frame hframe1 htl
      have hnd1 : (c :: rest).Nodup := by
        have := List.nodup_cons.mp hnd
        exact List.nodup_cons.mpr
          ⟨fun hc => this.1 (List.mem_cons_of_mem _ hc), (List.nodup_cons.mp this.2).2⟩
      have hrecs1 : recsOf st1 (c :: rest) =
          (c, (st.mem c).size + (st.mem n).size + HEADER_SIZE, (st.mem c).free) ::
            recsOf st rest := by
        rw [recsOf_cons, recsOf_frame hframe1]
        have hm : st1.mem c = ⟨(st.mem c).size + (st.mem n).size + HEADER_SIZE,
            (st.mem n).next, (st.mem c).free⟩ := by
          rw [hst1, setHeader_mem_self, hwadd]
        rw [hm]
      have hsum1 : sumBlocks (recsOf st1 (c :: rest)) < M64 := by
        rw [sumBlocks_recsOf_cons, recsOf_frame hframe1]
        have hm : st1.mem c = ⟨(st.mem c).size + (st.mem n).size + HEADER_SIZE,
            (st.mem n).next, (st.mem c).free⟩ := by
          rw [hst1, setHeader_mem_self, hwadd]
        rw [hm]
        dsimp only
        omega
      have hfuel1 : 2 * (c :: rest).length ≤ f := by
        simp only [List.length_cons]
        omega
      obtain ⟨M, hrecs, hchain, hframe, hhead⟩ := ih f st1 c hC1 hnd1 hsum1 hfuel1
      refine ⟨M, ?_, hchain, ?_, hhead⟩
      · rw [hrecs, hrecs1]
        rw [recsOf_cons, recsOf_cons]
        show _ = merge_pass ((c, (st.mem c).size, (st.mem c).free) ::
          (n, (st.mem n).size, (st.mem n).free) :: recsOf st rest)
        rw [merge_pass]
        rw [if_pos ⟨hfree.1, hfree.2⟩]
      · intro x hx
        have hx1 : x ∉ c :: rest := by
          intro hc
          rcases List.mem_cons.mp hc with h | h
          · exact hx (h ▸ List.mem_cons_self _ _)
          · exact hx (List.mem_cons_of_mem _ (List.mem_cons_of_mem _ h))
        rw [hframe x hx1]
        exact setHeader_mem_ne st c _ (fun he => hx (he ▸ List.mem_cons_self _ _))
    · -- advance to `n`
      rw [merge_loop_succ_skip hcn hfree]
      have hsum' : sumBlocks (recsOf st (n :: rest)) < M64 := by
        rw [sumBlocks_recsOf_cons] at hsum
        omega
      have hfuel' : 2 * (n :: rest).length ≤ f := by
        simp only [List.length_cons]
        omega
      obtain ⟨M, hrecs, hchain, hframe, hhead⟩ :=
        ih f st n (hcn ▸ hnx) (List.nodup_cons.mp hnd).2 hsum' hfuel'
      have hcmem : (merge_loop f st (some n)).mem c = st.mem c := hframe c hcnotn
      refine ⟨c :: M, ?_, ?_, ?_, rfl⟩
      · rw [recsOf_cons, hcmem, hrecs]
        show _ = merge_pass ((c, (st.mem c).size, (st.mem c).free) ::
          (n, (st.mem n).size, (st.mem n).free) :: recsOf st rest)
        rw [merge_pass]
        rw [if_neg (by simpa using hfree), recsOf_cons]
      · refine ChainOk.cons ?_
        rw [hcmem, hcn]
        exact hchain
      · intro x hx
        exact hframe x (fun hc => hx (List.mem_cons_of_mem _ hc))

theorem merge_blocks_spec {st : HeapState} {L : List Nat}
    (hC : ChainOk st st.freeList L) (hnd : L.Nodup)
    (hsum : sumBlocks (recsOf st L) < M64)
    (hfuel : 2 * L.length ≤ FUEL) :
    ∃ M : List Nat,
      recsOf (merge_free_blocks st) M = merge_pass (recsOf st L) ∧
      ChainOk (merge_free_blocks st) (merge_free_blocks st).freeList M ∧
      (∀ x, x ∉ L → (merge_free_blocks st).mem x = st.mem x) ∧
      M.head? = L.head? := by
  cases L with
  | nil =>
    have hfl : st.freeList = none := chain_nil_inv hC
    have : merge_free_blocks st = st := by
      rw [merge_free_blocks, hfl]
      show merge_loop (HEAP_SIZE + 1) st none = st
      rfl
    rw [this]
    refine ⟨[], ?_, ?_, fun x _ => rfl, rfl⟩
    · show recsOf st [] = merge_pass (recsOf st [])
      rw [show recsOf st ([] : List Nat) = [] from rfl, merge_pass]
    · rw [hfl]
      exact ChainOk.nil
  | cons c L' =>
    have hfl : st.freeList = some c := (chain_cons_inv hC).1
    have hml : merge_free_blocks st = merge_loop FUEL st (some c) := by
      rw [merge_free_blocks, hfl]
    obtain ⟨M, h1, h2, h3, h4⟩ :=
      merge_loop_spec L' FUEL st c (hfl ▸ hC) hnd hsum hfuel
    rw [hml]
    refine ⟨M, h1, ?_, h3, h4⟩
    have : (merge_loop FUEL st (some c)).freeList = some c := by
      rw [merge_loop_freeList, hfl]
    rw [this]
    exact h2

/-- Head block of the merge result: same offset and free flag as the head of
the input, with a size at least the input head's size (merging only absorbs). -/
theorem merge_pass_head (l : List (Nat × Nat × Bool)) :
    ∀ x : Nat × Nat × Bool,
      ∃ S tail, merge_pass (x :: l) = (x.1, S, x.2.2) :: tail ∧ x.2.1 ≤ S := by
  induction l with
  | nil =>
    intro x
    refine ⟨x.2.1, [], ?_, le_refl _⟩
    rw [merge_pass]
  | cons y rest ih =>
    intro x
    by_cases h : x.2.2 = true ∧ y.2.2 = true
    · obtain ⟨S, tail, heq, hle⟩ := ih (x.1, x.2.1 + y.2.1 + HEADER_SIZE, x.2.2)
      refine ⟨S, tail, ?_, by simp at hle; omega⟩
      rw [merge_pass, if_pos h]
      exact heq
    · refine ⟨x.2.1, merge_pass (y :: rest), ?_, le_refl _⟩
      rw [merge_pass, if_neg h]

/-! ### Failure paths leave the state untouched -/

theorem grow_none_state {st : HeapState} {n : Nat}
    (h : (grow_heap st n).1 = none) : (grow_heap st n).2 = st := by
  unfold grow_heap at h ⊢
  by_cases hoom : HEAP_SIZE < wadd st.brk
      (if wadd n HEADER_SIZE < 1024 * 16 then 1024 * 16 else wadd n HEADER_SIZE)
  · rw [if_pos hoom]
  · rw [if_neg hoom] at h
    simp at h

theorem find_scan_none_state {req : Nat} :
    ∀ (fuel : Nat) (st : HeapState) (prev cur : Option Nat),
      (find_scan req fuel st prev cur).1 = none →
      (find_scan req fuel st prev cur).2 = st := by
  intro fuel
  induction fuel with
  | zero => intro st prev cur _; rfl
  | succ f ih =>
    intro st prev cur h
    cases cur with
    | none => exact grow_none_state (by rw [← find_scan_succ_none req f st prev]; exact h)
    | some c =>
      by_cases hq : (st.mem c).free = true ∧ req ≤ (st.mem c).size
      · rw [find_scan_succ_hit hq f prev] at h
        simp at h
      · rw [find_scan_succ_skip hq f prev] at h ⊢
        exact ih st (some c) _ h

theorem alloc_none_state {st : HeapState} {n : Nat}
    (h : (HmmAlloc st n).1 = none) : (HmmAlloc st n).2 = st := by
  unfold HmmAlloc at h ⊢
  by_cases h0 : n = 0
  · rw [if_pos h0]
  · rw [if_neg h0] at h ⊢
    dsimp only at h ⊢
    cases hr : (find_free_block st (ALIGN n)).1 with
    | none =>
      simp only [hr]
      exact find_scan_none_state FUEL st none st.freeList hr
    | some b =>
      rw [hr] at h
      simp at h

/-! ### Break bounds; monotonicity holds only below the wrap threshold -/

theorem grow_heap_brk (st : HeapState) (n : Nat) :
    (grow_heap st n).2.brk ≤ max st.brk HEAP_SIZE := by
  unfold grow_heap
  by_cases hoom : HEAP_SIZE < wadd st.brk
      (if wadd n HEADER_SIZE < 1024 * 16 then 1024 * 16 else wadd n HEADER_SIZE)
  · rw [if_pos hoom]
    exact le_max_left _ _
  · rw [if_neg hoom]
    push_neg at hoom
    dsimp only
    by_cases hsp : wadd n MIN_BLOCK_SIZE <
        ((setHeader st st.brk
          ⟨wsub (if wadd n HEADER_SIZE < 1024 * 16 then 1024 * 16 else wadd n HEADER_SIZE)
            HEADER_SIZE, none, false⟩).mem st.brk).size
    · rw [if_pos hsp, split_block_brk]
      dsimp only
      rw [setHeader_brk]
      exact le_max_of_le_right hoom
    · rw [if_neg hsp]
      dsimp only
      rw [setHeader_brk]
      exact le_max_of_le_right hoom

theorem grow_heap_brk_mono {st : HeapState} {n : Nat}
    (hbrk : st.brk ≤ HEAP_SIZE) (hn : n ≤ HEAP_SIZE) :
    st.brk ≤ (grow_heap st n).2.brk := by
  have hH : HEADER_SIZE = 24 := rfl
  have hHeap : HEAP_SIZE = 1048576 := rfl
  have hM64 : M64 = 18446744073709551616 := by norm_num [M64]
  have hnw : wadd n HEADER_SIZE = n + HEADER_SIZE := wadd_eq (by omega)
  have hckb : (if wadd n HEADER_SIZE < 1024 * 16 then 1024 * 16 else wadd n HEADER_SIZE) ≤
      HEAP_SIZE + HEADER_SIZE := by
    rw [hnw]
    by_cases h : n + HEADER_SIZE < 1024 * 16
    · rw [if_pos h]
      omega
    · rw [if_neg h]
      omega
  have hw : wadd st.brk
      (if wadd n HEADER_SIZE < 1024 * 16 then 1024 * 16 else wadd n HEADER_SIZE) =
      st.brk +
      (if wadd n HEADER_SIZE < 1024 * 16 then 1024 * 16 else wadd n HEADER_SIZE) :=
    wadd_eq (by omega)
  unfold grow_heap
  by_cases hoom : HEAP_SIZE < wadd st.brk
      (if wadd n HEADER_SIZE < 1024 * 16 then 1024 * 16 else wadd n HEADER_SIZE)
  · rw [if_pos hoom]
  · rw [if_neg hoom]
    dsimp only
    by_cases hsp : wadd n MIN_BLOCK_SIZE <
        ((setHeader st st.brk
          ⟨wsub (if wadd n HEADER_SIZE < 1024 * 16 then 1024 * 16 else wadd n HEADER_SIZE)
            HEADER_SIZE, none, false⟩).mem st.brk).size
    · rw [if_pos hsp, split_block_brk]
      dsimp only
      rw [setHeader_brk, hw]
      omega
    · rw [if_neg hsp]
      dsimp only
      rw [setHeader_brk, hw]
      omega

theorem find_scan_brk {req : Nat} :
    ∀ (fuel : Nat) (st : HeapState) (prev cur : Option Nat),
      (find_scan req fuel st prev cur).2.brk ≤ max st.brk HEAP_SIZE := by
  intro fuel
  induction fuel with
  | zero => intro st prev cur; exact le_max_left _ _
  | succ f ih =>
    intro st prev cur
    cases cur with
    | none =>
      rw [find_scan_succ_none]
      exact grow_heap_brk st req
    | some c =>
      by_cases hq : (st.mem c).free = true ∧ req ≤ (st.mem c).size
      · rw [find_scan_succ_hit hq f prev]
        have h1 : (split_block (unlink st prev c) c req).brk = st.brk := by
          rw [split_block_brk, unlink_brk]
        exact le_trans (le_of_eq h1) (le_max_left _ _)
      · rw [find_scan_succ_skip hq f prev]
        exact ih st (some c) _

theorem find_scan_brk_mono {req : Nat} (hreq : req ≤ HEAP_SIZE) :
    ∀ (fuel : Nat) (st : HeapState) (prev cur : Option Nat),
      st.brk ≤ HEAP_SIZE →
      st.brk ≤ (find_scan req fuel st prev cur).2.brk := by
  intro fuel
  induction fuel with
  | zero => intro st prev cur _; exact le_refl _
  | succ f ih =>
    intro st prev cur hbrk
    cases cur with
    | none =>
      rw [find_scan_succ_none]
      exact grow_heap_brk_mono hbrk hreq
    | some c =>
      by_cases hq : (st.mem c).free = true ∧ req ≤ (st.mem c).size
      · rw [find_scan_succ_hit hq f prev]
        have h1 : (split_block (unlink st prev c) c req).brk = st.brk := by
          rw [split_block_brk, unlink_brk]
        exact le_of_eq h1.symm
      · rw [find_scan_succ_skip hq f prev]
        exact ih st (some c) _ hbrk

theorem HmmAlloc_brk (st : HeapState) (n : Nat) :
    (HmmAlloc st n).2.brk ≤ max st.brk HEAP_SIZE := by
  unfold HmmAlloc
  by_cases h0 : n = 0
  · rw [if_pos h0]
    exact le_max_left _ _
  · rw [if_neg h0]
    dsimp only
    cases hr : (find_free_block st (ALIGN n)).1 with
    | none =>
      simp only [hr]
      exact find_scan_brk FUEL st none st.freeList
    | some b =>
      simp only [hr, setHeader_brk]
      exact find_scan_brk FUEL st none st.freeList

theorem ALIGN_le_HEAP {n : Nat} (hn : n ≤ HEAP_SIZE) : ALIGN n ≤ HEAP_SIZE := by
  have h8 : HEAP_SIZE = 8 * 131072 := by norm_num [HEAP_SIZE]
  have h1 : ALIGN n ≤ 8 * 131072 :=
    align_le_of_le (by omega) (by norm_num [M64])
  omega

theorem HmmAlloc_brk_mono {st : HeapState} {n : Nat}
    (hbrk : st.brk ≤ HEAP_SIZE) (hn : n ≤ HEAP_SIZE) :
    st.brk ≤ (HmmAlloc st n).2.brk := by
  have hAn : ALIGN n ≤ HEAP_SIZE := ALIGN_le_HEAP hn
  unfold HmmAlloc
  by_cases h0 : n = 0
  · rw [if_pos h0]
  · rw [if_neg h0]
    dsimp only
    cases hr : (find_free_block st (ALIGN n)).1 with
    | none =>
      simp only [hr]
      exact find_scan_brk_mono hAn FUEL st none st.freeList hbrk
    | some b =>
      simp only [hr, setHeader_brk]
      exact find_scan_brk_mono hAn FUEL st none st.freeList hbrk

theorem alloc_eq_none_of_find {st : HeapState} {n : Nat} (h0 : n ≠ 0)
    (hr : (find_free_block st (ALIGN n)).1 = none) :
    HmmAlloc st n = (none, (find_free_block st (ALIGN n)).2) := by
  unfold HmmAlloc
  rw [if_neg h0]
  dsimp only
  rw [hr]

theorem alloc_eq_some_of_find {st : HeapState} {n b : Nat} (h0 : n ≠ 0)
    (hr : (find_free_block st (ALIGN n)).1 = some b) :
    HmmAlloc st n =
      (some (b + HEADER_SIZE),
        setHeader (find_free_block st (ALIGN n)).2 b
          { (find_free_block st (ALIGN n)).2.mem b with free := false }) := by
  unfold HmmAlloc
  rw [if_neg h0]
  dsimp only
  rw [hr]

/-! ### Characterization of `grow_heap` below the wrapping threshold -/

theorem grow_chunk_eq {n : Nat} (hn : n + HEADER_SIZE < M64) :
    (if wadd n HEADER_SIZE < 1024 * 16 then 1024 * 16 else wadd n HEADER_SIZE) =
      max (n + HEADER_SIZE) (1024 * 16) := by
  rw [wadd_eq hn]
  by_cases h : n + HEADER_SIZE < 1024 * 16
  · rw [if_pos h]; omega
  · rw [if_neg h]; omega

theorem grow_spec_none {st : HeapState} {n : Nat} (hn : n + HEADER_SIZE < M64)
    (hbw : st.brk + max (n + HEADER_SIZE) (1024 * 16) < M64)
    (hoom : HEAP_SIZE < st.brk + max (n + HEADER_SIZE) (1024 * 16)) :
    grow_heap st n = (none, st) := by
  simp only [grow_heap]
  rw [grow_chunk_eq hn, wadd_eq hbw, if_pos hoom]

theorem grow_spec_some {st : HeapState} {n : Nat} (hn : n + HEADER_SIZE < M64)
    (hbw : st.brk + max (n + HEADER_SIZE) (1024 * 16) < M64)
    (hok : st.brk + max (n + HEADER_SIZE) (1024 * 16) ≤ HEAP_SIZE) :
    grow_heap st n =
      (some st.brk,
        if n + MIN_BLOCK_SIZE < max (n + HEADER_SIZE) (1024 * 16) - HEADER_SIZE then
          split_block
            { setHeader st st.brk
                ⟨max (n + HEADER_SIZE) (1024 * 16) - HEADER_SIZE, none, false⟩ with
              brk := st.brk + max (n + HEADER_SIZE) (1024 * 16) }
            st.brk n
        else
          { setHeader st st.brk
              ⟨max (n + HEADER_SIZE) (1024 * 16) - HEADER_SIZE, none, false⟩ with
            brk := st.brk + max (n + HEADER_SIZE) (1024 * 16) }) := by
  have e1 : HEADER_SIZE = 24 := rfl
  have e3 : HEAP_SIZE = 1048576 := rfl
  have e4 : M64 = 18446744073709551616 := by norm_num [M64]
  have hchunk : max (n + HEADER_SIZE) (1024 * 16) < M64 := by omega
  have hn32 : n + MIN_BLOCK_SIZE < M64 := by rw [MIN_BLOCK_SIZE_eq]; omega
  simp only [grow_heap]
  rw [grow_chunk_eq hn, wadd_eq hbw, if_neg (by omega)]
  have hsz : wsub (max (n + HEADER_SIZE) (1024 * 16)) HEADER_SIZE =
      max (n + HEADER_SIZE) (1024 * 16) - HEADER_SIZE := wsub_eq hchunk (by omega)
  rw [hsz]
  have hmm : (setHeader st st.brk
      ⟨max (n + HEADER_SIZE) (1024 * 16) - HEADER_SIZE, none, false⟩).mem st.brk =
      ⟨max (n + HEADER_SIZE) (1024 * 16) - HEADER_SIZE, none, false⟩ := setHeader_mem_self _ _ _
  have hguard : wadd n MIN_BLOCK_SIZE = n + MIN_BLOCK_SIZE := wadd_eq hn32
  simp only [hmm, hguard, setHeader_brk, wadd_eq hbw]

/-! ### The allocator well-formedness invariant -/

/-- One past the last byte of the block whose header sits at offset `b`. -/
def footEnd (st : HeapState) (b : Nat) : Nat := b + HEADER_SIZE + (st.mem b).size

/-- All tracked block offsets: free-list chain plus headers of live payloads. -/
def blocksOf (C live : List Nat) : List Nat :=
  C ++ live.map (fun p => p - HEADER_SIZE)

/-- Well-formedness of an allocator state with free-list chain `C` and
outstanding payload pointers `live`: the free list is a finite acyclic chain
of free blocks, live pointers sit one header past allocated headers, all
block footprints are pairwise disjoint and lie below the break, and the
break is within the arena.  Since a footprint starts with its 24-byte
header, footprint disjointness makes all tracked headers pairwise
byte-disjoint, so on `Inv` states the per-offset header map coincides with
the source's byte-level header reads and writes. -/
def Inv (st : HeapState) (C live : List Nat) : Prop :=
  ChainOk st st.freeList C ∧
  C.Nodup ∧
  (∀ b ∈ C, (st.mem b).free = true) ∧
  (∀ p ∈ live, HEADER_SIZE ≤ p ∧ (st.mem (p - HEADER_SIZE)).free = false) ∧
  (∀ a ∈ blocksOf C live, ∀ b ∈ blocksOf C live,
      a ≠ b → footEnd st a ≤ b ∨ footEnd st b ≤ a) ∧
  (∀ a ∈ blocksOf C live, footEnd st a ≤ st.brk) ∧
  st.brk ≤ HEAP_SIZE

theorem inv_initState : Inv initState [] [] := by
  refine ⟨ChainOk.nil, List.nodup_nil, ?_, ?_, ?_, ?_, ?_⟩ <;>
    simp [blocksOf, HEAP_SIZE, initState]

theorem blocksOf_lt_brk {st : HeapState} {C live : List Nat} (hI : Inv st C live) :
    ∀ a ∈ blocksOf C live, a < st.brk := by
  intro a ha
  have h1 := hI.2.2.2.2.2.1 a ha
  have h2 : 0 < HEADER_SIZE := by norm_num [HEADER_SIZE]
  unfold footEnd at h1
  omega

theorem blocksOf_size_le {st : HeapState} {C live : List Nat} (hI : Inv st C live) :
    ∀ a ∈ blocksOf C live, (st.mem a).size ≤ HEAP_SIZE := by
  intro a ha
  have h1 := hI.2.2.2.2.2.1 a ha
  have h2 := hI.2.2.2.2.2.2
  unfold footEnd at h1
  omega

theorem chain_mem_blocksOf {C live : List Nat} {b : Nat} (hb : b ∈ C) :
    b ∈ blocksOf C live := List.mem_append_left _ hb

theorem live_mem_blocksOf {C live : List Nat} {p : Nat} (hp : p ∈ live) :
    p - HEADER_SIZE ∈ blocksOf C live :=
  List.mem_append_right _ (List.mem_map_of_mem _ hp)

theorem chain_not_live_hdr {st : HeapState} {C live : List Nat} (hI : Inv st C live) :
    ∀ b ∈ C, ∀ p ∈ live, b ≠ p - HEADER_SIZE := by
  intro b hb p hp he
  have h1 := hI.2.2.1 b hb
  have h2 := (hI.2.2.2.1 p hp).2
  rw [he] at h1
  rw [h1] at h2
  exact Bool.noConfusion h2

theorem chain_sub_blocks {C live : List Nat} {M R : List Nat} {b x : Nat}
    (hdec : C = M ++ b :: R) (hx : x ∈ M ++ R) : x ∈ blocksOf C live := by
  subst hdec
  rcases List.mem_append.mp hx with h | h
  · exact chain_mem_blocksOf (List.mem_append_left _ h)
  · exact chain_mem_blocksOf (List.mem_append_right _ (List.mem_cons_of_mem _ h))

/-- Preservation of the invariant along a successful first-fit hit at `b`,
including the final marking of the block as allocated. -/
theorem hit_preserv {st : HeapState} {C live M R : List Nat} {b sz : Nat}
    (hI : Inv st C live)
    (hdec : C = M ++ b :: R)
    (hmiss : ∀ x ∈ M, ¬((st.mem x).free = true ∧ sz ≤ (st.mem x).size))
    (hqual : (st.mem b).free = true ∧ sz ≤ (st.mem b).size) :
    (find_free_block st sz).1 = some b ∧
    ∃ C',
      Inv (setHeader (find_free_block st sz).2 b
            { (find_free_block st sz).2.mem b with free := false })
          C' ((b + HEADER_SIZE) :: live) ∧
      b ∉ C' ∧
      sz ≤ ((find_free_block st sz).2.mem b).size ∧
      (find_free_block st sz).2.brk = st.brk := by
  obtain ⟨hCh, hNd, hCF, hLF, hDisj, hEnd, hBrk⟩ := hI
  have hIfull : Inv st C live := ⟨hCh, hNd, hCF, hLF, hDisj, hEnd, hBrk⟩
  have hH24 : HEADER_SIZE = 24 := rfl
  have hW8 : WORD = 8 := rfl
  have hHeap : HEAP_SIZE = 1048576 := rfl
  have hM64 : M64 = 18446744073709551616 := by norm_num [M64]
  have hbC : b ∈ C := by rw [hdec]; exact List.mem_append_right _ (List.mem_cons_self _ _)
  have hbBl : b ∈ blocksOf C live := chain_mem_blocksOf hbC
  have hbEnd := hEnd b hbBl
  have hbsize : (st.mem b).size ≤ HEAP_SIZE := blocksOf_size_le hIfull b hbBl
  have hbbrk : b < st.brk := blocksOf_lt_brk hIfull b hbBl
  have hszHeap : sz ≤ HEAP_SIZE := le_trans hqual.2 hbsize
  have hlenM : M.length < FUEL := by
    have hlen : C.length ≤ HEAP_SIZE :=
      chain_nodup_length_le hNd
        (fun x hx =>
          lt_of_lt_of_le (blocksOf_lt_brk hIfull x (chain_mem_blocksOf hx)) hBrk)
    have hle : M.length ≤ C.length := by
      rw [hdec]
      simp [List.length_append]
    have hF : FUEL = 2 * HEAP_SIZE + 2 := rfl
    omega
  have hfind : find_free_block st sz =
      (some b, split_block (unlink st (lastOr none M) b) b sz) :=
    find_scan_hit hqual M FUEL none st.freeList (hdec ▸ hCh) hmiss hlenM
  have hndC : (M ++ b :: R).Nodup := hdec ▸ hNd
  have hndm := List.nodup_middle.mp hndC
  have hbMR : b ∉ M ++ R := (List.nodup_cons.mp hndm).1
  have hndMR : (M ++ R).Nodup := (List.nodup_cons.mp hndm).2
  have hbM : b ∉ M := fun h => hbMR (List.mem_append_left _ h)
  have hUchain : ChainOk (unlink st (lastOr none M) b)
      (unlink st (lastOr none M) b).freeList (M ++ R) :=
    unlink_chain (hdec ▸ hCh) hndC
  have hUb : (unlink st (lastOr none M) b).mem b = st.mem b := unlink_mem_of_not_mem hbM
  have hUsf := fun x => unlink_size_free st (lastOr none M) b x
  have hUmem : ∀ x, x ∉ M → (unlink st (lastOr none M) b).mem x = st.mem x :=
    fun x hx => unlink_mem_of_not_mem hx
  have hUbrk : (unlink st (lastOr none M) b).brk = st.brk := unlink_brk st _ b
  have hfootU : ∀ x, footEnd (unlink st (lastOr none M) b) x = footEnd st x := by
    intro x
    unfold footEnd
    rw [(hUsf x).1]
  have hlivenotC : ∀ p ∈ live, p - HEADER_SIZE ∉ C := by
    intro p hp hin
    exact chain_not_live_hdr hIfull _ hin p hp rfl
  have hMRfree : ∀ x ∈ M ++ R, (st.mem x).free = true := by
    intro x hx
    refine hCF x ?_
    rw [hdec]
    rcases List.mem_append.mp hx with h | h
    · exact List.mem_append_left _ h
    · exact List.mem_append_right _ (List.mem_cons_of_mem _ h)
  have hMRmemC : ∀ x ∈ M ++ R, x ∈ blocksOf C live := fun x hx => chain_sub_blocks hdec hx
  rw [hfind]
  refine ⟨rfl, ?_⟩
  show ∃ C', Inv (setHeader (split_block (unlink st (lastOr none M) b) b sz) b
      { (split_block (unlink st (lastOr none M) b) b sz).mem b with free := false })
      C' ((b + HEADER_SIZE) :: live) ∧ b ∉ C' ∧
      sz ≤ ((split_block (unlink st (lastOr none M) b) b sz).mem b).size ∧
      (split_block (unlink st (lastOr none M) b) b sz).brk = st.brk
  have hSbrk : (split_block (unlink st (lastOr none M) b) b sz).brk = st.brk := by
    rw [split_block_brk, hUbrk]
  by_cases hsplit : sz + HEADER_SIZE + WORD ≤ (st.mem b).size
  · -- the block is divided
    have hreq : sz + HEADER_SIZE + WORD < M64 := by omega
    have hnbM : b + HEADER_SIZE + sz < M64 := by omega
    have hgeU : sz + HEADER_SIZE + WORD ≤ ((unlink st (lastOr none M) b).mem b).size := by
      rw [(hUsf b).1]; exact hsplit
    have hbMlt : ((unlink st (lastOr none M) b).mem b).size < M64 := by
      rw [(hUsf b).1]; omega
    obtain ⟨hSfl, hSnb, hSb, hSframe⟩ := split_effect hbMlt hreq hnbM hgeU
    rw [hUb] at hSnb hSb
    have hnbne : b ≠ b + HEADER_SIZE + sz := by omega
    have hfresh : ∀ x ∈ blocksOf C live, x ≠ b → x ≠ b + HEADER_SIZE + sz := by
      intro x hx hxb
      have hdisj := hDisj x hx b hbBl hxb
      have hxE := hEnd x hx
      unfold footEnd at hdisj hxE
      omega
    -- final headers
    set stS := split_block (unlink st (lastOr none M) b) b sz with hstS
    set stF := setHeader stS b { stS.mem b with free := false } with hstF
    have hFb : stF.mem b = ⟨sz, some (b + HEADER_SIZE + sz), false⟩ := by
      rw [hstF, setHeader_mem_self, hSb]
    have hFnb : stF.mem (b + HEADER_SIZE + sz) =
        ⟨(st.mem b).size - sz - HEADER_SIZE, (unlink st (lastOr none M) b).freeList, true⟩ := by
      rw [hstF, setHeader_mem_ne _ _ _ (Ne.symm hnbne), hSnb]
    have hFmem : ∀ x, x ≠ b → x ≠ b + HEADER_SIZE + sz →
        stF.mem x = (unlink st (lastOr none M) b).mem x := by
      intro x hx1 hx2
      rw [hstF, setHeader_mem_ne _ _ _ hx1, hSframe x hx1 hx2]
    have hFfl : stF.freeList = some (b + HEADER_SIZE + sz) := by
      rw [hstF, setHeader_freeList, hSfl]
    have hFbrk : stF.brk = st.brk := by
      rw [hstF, setHeader_brk, hSbrk]
    have hfootFold : ∀ x, x ≠ b → x ≠ b + HEADER_SIZE + sz →
        footEnd stF x = footEnd st x := by
      intro x h1 h2
      unfold footEnd
      rw [hFmem x h1 h2, (hUsf x).1]
    have hfootFb : footEnd stF b = b + HEADER_SIZE + sz := by
      unfold footEnd
      rw [hFb]
    have hfootFnb : footEnd stF (b + HEADER_SIZE + sz) = footEnd st b := by
      unfold footEnd
      rw [hFnb]
      show b + HEADER_SIZE + sz + HEADER_SIZE + ((st.mem b).size - sz - HEADER_SIZE) = _
      omega
    have hMRne : ∀ x ∈ M ++ R, x ≠ b ∧ x ≠ b + HEADER_SIZE + sz := by
      intro x hx
      have hx1 : x ≠ b := fun he => hbMR (he ▸ hx)
      exact ⟨hx1, hfresh x (hMRmemC x hx) hx1⟩
    have hlivene : ∀ p ∈ live, p - HEADER_SIZE ≠ b ∧ p - HEADER_SIZE ≠ b + HEADER_SIZE + sz := by
      intro p hp
      have h1 : p - HEADER_SIZE ≠ b := fun he => hlivenotC p hp (he ▸ hbC)
      exact ⟨h1, hfresh _ (live_mem_blocksOf hp) h1⟩
    refine ⟨(b + HEADER_SIZE + sz) :: (M ++ R), ⟨?_, ?_, ?_, ?_, ?_, ?_, ?_⟩, ?_, ?_, hSbrk⟩
    · -- chain structure
      rw [hFfl]
      refine ChainOk.cons ?_
      rw [hFnb]
      show ChainOk stF ((unlink st (lastOr none M) b).freeList) (M ++ R)
      refine chain_frame ?_ hUchain
      intro x hx
      exact hFmem x (hMRne x hx).1 (hMRne x hx).2
    · -- nodup
      refine List.nodup_cons.mpr ⟨?_, hndMR⟩
      intro hmem
      exact (hMRne _ hmem).2 rfl
    · -- chain blocks are free
      intro x hx
      rcases List.mem_cons.mp hx with rfl | hx'
      · rw [hFnb]
      · rw [hFmem x (hMRne x hx').1 (hMRne x hx').2, (hUsf x).2]
        exact hMRfree x hx'
    · -- live pointers
      intro p hp
      rcases List.mem_cons.mp hp with rfl | hp'
      · refine ⟨by omega, ?_⟩
        have : b + HEADER_SIZE - HEADER_SIZE = b := by omega
        rw [this, hFb]
      · refine ⟨(hLF p hp').1, ?_⟩
        rw [hFmem _ (hlivene p hp').1 (hlivene p hp').2, (hUsf _).2]
        exact (hLF p hp').2
    · -- pairwise disjoint footprints
      have hclass : ∀ a, a ∈ blocksOf ((b + HEADER_SIZE + sz) :: (M ++ R))
          ((b + HEADER_SIZE) :: live) →
          a = b + HEADER_SIZE + sz ∨ a = b ∨
            (a ∈ blocksOf C live ∧ a ≠ b ∧ a ≠ b + HEADER_SIZE + sz) := by
        intro a ha
        rcases List.mem_append.mp ha with h | h
        · rcases List.mem_cons.mp h with rfl | h'
          · exact Or.inl rfl
          · exact Or.inr (Or.inr ⟨hMRmemC a h', (hMRne a h').1, (hMRne a h').2⟩)
        · rcases List.mem_map.mp h with ⟨p, hp, rfl⟩
          rcases List.mem_cons.mp hp with rfl | hp'
          · right; left
            omega
          · exact Or.inr (Or.inr
              ⟨live_mem_blocksOf hp', (hlivene p hp').1, (hlivene p hp').2⟩)
      have hfble : b + HEADER_SIZE + sz ≤ footEnd st b := by
        unfold footEnd
        omega
      intro a ha a' ha' hne
      rcases hclass a ha with rfl | hab1 | ⟨haC, hab, hanb⟩ <;>
        rcases hclass a' ha' with rfl | hab2 | ⟨ha'C, ha'b, ha'nb⟩
      · exact absurd rfl hne
      · rw [hab2]
        right
        rw [hfootFb]
      · have hD := hDisj a' ha'C b hbBl ha'b
        rw [hfootFnb, hfootFold a' ha'b ha'nb]
        omega
      · rw [hab1]
        left
        rw [hfootFb]
      · exact absurd (hab1.trans hab2.symm) hne
      · have hD := hDisj a' ha'C b hbBl ha'b
        rw [hab1, hfootFb, hfootFold a' ha'b ha'nb]
        omega
      · have hD := hDisj a haC b hbBl hab
        rw [hfootFold a hab hanb, hfootFnb]
        omega
      · have hD := hDisj a haC b hbBl hab
        rw [hab2, hfootFold a hab hanb, hfootFb]
        omega
      · rw [hfootFold a hab hanb, hfootFold a' ha'b ha'nb]
        exact hDisj a haC a' ha'C hne
    · -- footprints below the break
      intro a ha
      rcases List.mem_append.mp ha with h | h
      · rcases List.mem_cons.mp h with rfl | h'
        · rw [hfootFnb, hFbrk]
          exact hbEnd
        · rw [hfootFold a (hMRne a h').1 (hMRne a h').2, hFbrk]
          exact hEnd a (hMRmemC a h')
      · rcases List.mem_map.mp h with ⟨p, hp, rfl⟩
        rcases List.mem_cons.mp hp with rfl | hp'
        · have he : b + HEADER_SIZE - HEADER_SIZE = b := by omega
          rw [he, hfootFb, hFbrk]
          unfold footEnd at hbEnd
          omega
        · rw [hfootFold _ (hlivene p hp').1 (hlivene p hp').2, hFbrk]
          exact hEnd _ (live_mem_blocksOf hp')
    · -- break stays in bounds
      rw [hFbrk]
      exact hBrk
    · -- the handed-out block is off the new chain
      intro hmem
      rcases List.mem_cons.mp hmem with he | hm
      · omega
      · exact hbMR hm
    · -- the handed-out block still fits the request
      rw [hSb]
  · -- the block is handed out whole
    have hreq : sz + HEADER_SIZE + WORD < M64 := by omega
    have hltU : ((unlink st (lastOr none M) b).mem b).size < sz + HEADER_SIZE + WORD := by
      rw [(hUsf b).1]; omega
    have hSeq : split_block (unlink st (lastOr none M) b) b sz =
        unlink st (lastOr none M) b := split_spec_neg hreq hltU
    rw [hSeq]
    set stF := setHeader (unlink st (lastOr none M) b) b
        { (unlink st (lastOr none M) b).mem b with free := false } with hstF
    have hFb : stF.mem b = { st.mem b with free := false } := by
      rw [hstF, setHeader_mem_self, hUb]
    have hFmem : ∀ x, x ≠ b → stF.mem x = (unlink st (lastOr none M) b).mem x :=
      fun x hx => by rw [hstF, setHeader_mem_ne _ _ _ hx]
    have hFfl : stF.freeList = (unlink st (lastOr none M) b).freeList :=
      setHeader_freeList _ _ _
    have hFbrk : stF.brk = st.brk := by rw [hstF, setHeader_brk, hUbrk]
    have hfootF : ∀ x, footEnd stF x = footEnd st x := by
      intro x
      by_cases hx : x = b
      · subst hx
        unfold footEnd
        rw [hFb]
      · unfold footEnd
        rw [hFmem x hx, (hUsf x).1]
    have hmemtr : ∀ a, a ∈ blocksOf (M ++ R) ((b + HEADER_SIZE) :: live) →
        a ∈ blocksOf C live := by
      intro a ha
      rcases List.mem_append.mp ha with h | h
      · exact hMRmemC a h
      · rcases List.mem_map.mp h with ⟨p, hp, rfl⟩
        rcases List.mem_cons.mp hp with rfl | hp'
        · have he : b + HEADER_SIZE - HEADER_SIZE = b := by omega
          rw [he]
          exact hbBl
        · exact live_mem_blocksOf hp'
    refine ⟨M ++ R, ⟨?_, hndMR, ?_, ?_, ?_, ?_, ?_⟩, hbMR, ?_, hUbrk⟩
    · -- chain
      rw [hFfl]
      refine chain_frame ?_ hUchain
      intro x hx
      exact hFmem x (fun he => hbMR (he ▸ hx))
    · -- chain blocks are free
      intro x hx
      have hxb : x ≠ b := fun he => hbMR (he ▸ hx)
      rw [hFmem x hxb, (hUsf x).2]
      exact hMRfree x hx
    · -- live pointers
      intro p hp
      rcases List.mem_cons.mp hp with rfl | hp'
      · refine ⟨by omega, ?_⟩
        have he : b + HEADER_SIZE - HEADER_SIZE = b := by omega
        rw [he, hFb]
      · refine ⟨(hLF p hp').1, ?_⟩
        have hne : p - HEADER_SIZE ≠ b := fun heq => hlivenotC p hp' (heq ▸ hbC)
        rw [hFmem _ hne, (hUsf _).2]
        exact (hLF p hp').2
    · -- pairwise disjoint footprints
      intro a ha a' ha' hne
      rw [hfootF, hfootF]
      exact hDisj a (hmemtr a ha) a' (hmemtr a' ha') hne
    · -- footprints below the break
      intro a ha
      rw [hfootF, hFbrk]
      exact hEnd a (hmemtr a ha)
    · rw [hFbrk]
      exact hBrk
    · -- the handed-out block still fits the request
      rw [(hUsf b).1]
      exact hqual.2

/-- Invariant for a freshly carved block that is split: `st2` extends `st`
with a block of payload `chunk - HEADER_SIZE` at `b`, everything tracked in
`st` ends at or before `b`, and the surplus is large enough to split off. -/
theorem fresh_inv_split {st st2 : HeapState} {C live : List Nat} {sz b chunk : Nat}
    (hCh : ChainOk st st.freeList C)
    (hNd : C.Nodup)
    (hCF : ∀ x ∈ C, (st.mem x).free = true)
    (hLF : ∀ p ∈ live, HEADER_SIZE ≤ p ∧ (st.mem (p - HEADER_SIZE)).free = false)
    (hDisj : ∀ a ∈ blocksOf C live, ∀ a' ∈ blocksOf C live,
        a ≠ a' → footEnd st a ≤ a' ∨ footEnd st a' ≤ a)
    (hEndb : ∀ a ∈ blocksOf C live, footEnd st a ≤ b)
    (h2b : st2.mem b = ⟨chunk - HEADER_SIZE, none, false⟩)
    (h2mem : ∀ x, x ≠ b → st2.mem x = st.mem x)
    (h2fl : st2.freeList = st.freeList)
    (h2brk : st2.brk = b + chunk)
    (hchunk : sz + HEADER_SIZE ≤ chunk)
    (hheap : b + chunk ≤ HEAP_SIZE)
    (hguard : sz + MIN_BLOCK_SIZE < chunk - HEADER_SIZE) :
    ∃ C',
      Inv (setHeader (split_block st2 b sz) b
            { (split_block st2 b sz).mem b with free := false })
          C' ((b + HEADER_SIZE) :: live) ∧
      b ∉ C' ∧
      sz ≤ ((split_block st2 b sz).mem b).size ∧
      (split_block st2 b sz).brk = b + chunk := by
  have hH24 : HEADER_SIZE = 24 := rfl
  have hW8 : WORD = 8 := rfl
  have hM32 : MIN_BLOCK_SIZE = 32 := MIN_BLOCK_SIZE_eq
  have hHeap : HEAP_SIZE = 1048576 := rfl
  have hM64 : M64 = 18446744073709551616 := by norm_num [M64]
  have h2bsize : (st2.mem b).size = chunk - HEADER_SIZE := by rw [h2b]
  have hsplitM : (st2.mem b).size < M64 := by rw [h2bsize]; omega
  have hreq : sz + HEADER_SIZE + WORD < M64 := by omega
  have hnbM : b + HEADER_SIZE + sz < M64 := by omega
  have hge : sz + HEADER_SIZE + WORD ≤ (st2.mem b).size := by rw [h2bsize]; omega
  obtain ⟨hSfl, hSnb, hSb, hSframe⟩ := split_effect hsplitM hreq hnbM hge
  rw [h2b, h2fl] at hSnb
  rw [h2b] at hSb
  dsimp only at hSnb hSb
  have hSbrk : (split_block st2 b sz).brk = b + chunk := by
    rw [split_block_brk, h2brk]
  have hFb : (setHeader (split_block st2 b sz) b
      { (split_block st2 b sz).mem b with free := false }).mem b =
      ⟨sz, some (b + HEADER_SIZE + sz), false⟩ := by
    rw [setHeader_mem_self, hSb]
  have hnbne : b ≠ b + HEADER_SIZE + sz := by omega
  have hFnb : (setHeader (split_block st2 b sz) b
      { (split_block st2 b sz).mem b with free := false }).mem (b + HEADER_SIZE + sz) =
      ⟨chunk - HEADER_SIZE - sz - HEADER_SIZE, st.freeList, true⟩ := by
    rw [setHeader_mem_ne _ _ _ (Ne.symm hnbne), hSnb]
  have hFmem : ∀ x, x ≠ b → x ≠ b + HEADER_SIZE + sz →
      (setHeader (split_block st2 b sz) b
        { (split_block st2 b sz).mem b with free := false }).mem x = st.mem x := by
    intro x h1 h2
    rw [setHeader_mem_ne _ _ _ h1, hSframe x h1 h2, h2mem x h1]
  have hFfl : (setHeader (split_block st2 b sz) b
      { (split_block st2 b sz).mem b with free := false }).freeList =
      some (b + HEADER_SIZE + sz) := by
    rw [setHeader_freeList, hSfl]
  have hFbrk : (setHeader (split_block st2 b sz) b
      { (split_block st2 b sz).mem b with free := false }).brk = b + chunk := by
    rw [setHeader_brk, hSbrk]
  set stF := setHeader (split_block st2 b sz) b
      { (split_block st2 b sz).mem b with free := false } with hstF
  have holdne : ∀ a ∈ blocksOf C live, a ≠ b ∧ a ≠ b + HEADER_SIZE + sz := by
    intro a ha
    have h1 := hEndb a ha
    have h2 : a < footEnd st a := by
      unfold footEnd
      omega
    constructor <;> omega
  have hfootFold : ∀ a, a ≠ b → a ≠ b + HEADER_SIZE + sz →
      footEnd stF a = footEnd st a := by
    intro a h1 h2
    unfold footEnd
    rw [hFmem a h1 h2]
  have hfootFb : footEnd stF b = b + HEADER_SIZE + sz := by
    unfold footEnd
    rw [hFb]
  have hfootFnb : footEnd stF (b + HEADER_SIZE + sz) = b + chunk := by
    unfold footEnd
    rw [hFnb]
    show b + HEADER_SIZE + sz + HEADER_SIZE + (chunk - HEADER_SIZE - sz - HEADER_SIZE) = _
    omega
  have hchainneb : ∀ x ∈ C, x ≠ b ∧ x ≠ b + HEADER_SIZE + sz :=
    fun x hx => holdne x (chain_mem_blocksOf hx)
  refine ⟨(b + HEADER_SIZE + sz) :: C, ⟨?_, ?_, ?_, ?_, ?_, ?_, ?_⟩, ?_, ?_, hSbrk⟩
  · -- chain
    rw [hFfl]
    refine ChainOk.cons ?_
    rw [hFnb]
    show ChainOk stF st.freeList C
    refine chain_frame ?_ hCh
    intro x hx
    exact hFmem x (hchainneb x hx).1 (hchainneb x hx).2
  · -- nodup
    refine List.nodup_cons.mpr ⟨?_, hNd⟩
    intro hmem
    exact (hchainneb _ hmem).2 rfl
  · -- chain blocks free
    intro x hx
    rcases List.mem_cons.mp hx with rfl | hx'
    · rw [hFnb]
    · rw [hFmem x (hchainneb x hx').1 (hchainneb x hx').2]
      exact hCF x hx'
  · -- live pointers
    intro p hp
    rcases List.mem_cons.mp hp with rfl | hp'
    · refine ⟨by omega, ?_⟩
      have he : b + HEADER_SIZE - HEADER_SIZE = b := by omega
      rw [he, hFb]
    · refine ⟨(hLF p hp').1, ?_⟩
      rw [hFmem _ (holdne _ (live_mem_blocksOf hp')).1
        (holdne _ (live_mem_blocksOf hp')).2]
      exact (hLF p hp').2
  · -- pairwise disjoint
    have hclass : ∀ a, a ∈ blocksOf ((b + HEADER_SIZE + sz) :: C)
        ((b + HEADER_SIZE) :: live) →
        a = b + HEADER_SIZE + sz ∨ a = b ∨
          (a ∈ blocksOf C live ∧ a ≠ b ∧ a ≠ b + HEADER_SIZE + sz) := by
      intro a ha
      rcases List.mem_append.mp ha with h | h
      · rcases List.mem_cons.mp h with rfl | h'
        · exact Or.inl rfl
        · exact Or.inr (Or.inr
            ⟨chain_mem_blocksOf h', (hchainneb a h').1, (hchainneb a h').2⟩)
      · rcases List.mem_map.mp h with ⟨p, hp, rfl⟩
        rcases List.mem_cons.mp hp with rfl | hp'
        · right; left
          omega
        · exact Or.inr (Or.inr
            ⟨live_mem_blocksOf hp', (holdne _ (live_mem_blocksOf hp')).1,
             (holdne _ (live_mem_blocksOf hp')).2⟩)
    intro a ha a' ha' hne
    rcases hclass a ha with rfl | hab1 | ⟨haC, hab, hanb⟩ <;>
      rcases hclass a' ha' with rfl | hab2 | ⟨ha'C, ha'b, ha'nb⟩
    · exact absurd rfl hne
    · rw [hab2]
      right
      rw [hfootFb]
    · have hD := hEndb a' ha'C
      rw [hfootFnb, hfootFold a' ha'b ha'nb]
      omega
    · rw [hab1]
      left
      rw [hfootFb]
    · exact absurd (hab1.trans hab2.symm) hne
    · have hD := hEndb a' ha'C
      rw [hab1, hfootFb, hfootFold a' ha'b ha'nb]
      omega
    · have hD := hEndb a haC
      rw [hfootFold a hab hanb, hfootFnb]
      omega
    · have hD := hEndb a haC
      rw [hab2, hfootFold a hab hanb, hfootFb]
      omega
    · rw [hfootFold a hab hanb, hfootFold a' ha'b ha'nb]
      exact hDisj a haC a' ha'C hne
  · -- footprints below the break
    intro a ha
    rcases List.mem_append.mp ha with h | h
    · rcases List.mem_cons.mp h with rfl | h'
      · rw [hfootFnb, hFbrk]
      · rw [hfootFold a (hchainneb a h').1 (hchainneb a h').2, hFbrk]
        have := hEndb a (chain_mem_blocksOf h')
        omega
    · rcases List.mem_map.mp h with ⟨p, hp, rfl⟩
      rcases List.mem_cons.mp hp with rfl | hp'
      · have he : b + HEADER_SIZE - HEADER_SIZE = b := by omega
        rw [he, hfootFb, hFbrk]
        omega
      · rw [hfootFold _ (holdne _ (live_mem_blocksOf hp')).1
          (holdne _ (live_mem_blocksOf hp')).2, hFbrk]
        have := hEndb _ (live_mem_blocksOf hp')
        omega
  · -- break within the arena
    rw [hFbrk]
    omega
  · -- fresh block off the new chain
    intro hmem
    rcases List.mem_cons.mp hmem with he | hm
    · omega
    · exact absurd rfl (hchainneb b hm).1
  · -- the fresh block fits the request
    rw [hSb]

/-- Invariant for a freshly carved block handed out whole. -/
theorem fresh_inv_whole {st st2 : HeapState} {C live : List Nat} {sz b chunk : Nat}
    (hCh : ChainOk st st.freeList C)
    (hNd : C.Nodup)
    (hCF : ∀ x ∈ C, (st.mem x).free = true)
    (hLF : ∀ p ∈ live, HEADER_SIZE ≤ p ∧ (st.mem (p - HEADER_SIZE)).free = false)
    (hDisj : ∀ a ∈ blocksOf C live, ∀ a' ∈ blocksOf C live,
        a ≠ a' → footEnd st a ≤ a' ∨ footEnd st a' ≤ a)
    (hEndb : ∀ a ∈ blocksOf C live, footEnd st a ≤ b)
    (h2b : st2.mem b = ⟨chunk - HEADER_SIZE, none, false⟩)
    (h2mem : ∀ x, x ≠ b → st2.mem x = st.mem x)
    (h2fl : st2.freeList = st.freeList)
    (h2brk : st2.brk = b + chunk)
    (hchunk : sz + HEADER_SIZE ≤ chunk)
    (hheap : b + chunk ≤ HEAP_SIZE) :
    ∃ C',
      Inv (setHeader st2 b { st2.mem b with free := false }) C'
          ((b + HEADER_SIZE) :: live) ∧
      b ∉ C' ∧
      sz ≤ ((st2.mem b)).size ∧
      (setHeader st2 b { st2.mem b with free := false }).brk = b + chunk := by
  have hH24 : HEADER_SIZE = 24 := rfl
  have hHeap : HEAP_SIZE = 1048576 := rfl
  have hFb : (setHeader st2 b { st2.mem b with free := false }).mem b =
      ⟨chunk - HEADER_SIZE, none, false⟩ := by
    rw [setHeader_mem_self, h2b]
  have hFmem : ∀ x, x ≠ b →
      (setHeader st2 b { st2.mem b with free := false }).mem x = st.mem x := by
    intro x hx
    rw [setHeader_mem_ne _ _ _ hx, h2mem x hx]
  have hFfl : (setHeader st2 b { st2.mem b with free := false }).freeList =
      st.freeList := by
    rw [setHeader_freeList, h2fl]
  have hFbrk : (setHeader st2 b { st2.mem b with free := false }).brk = b + chunk := by
    rw [setHeader_brk, h2brk]
  set stF := setHeader st2 b { st2.mem b with free := false } with hstF
  have holdne : ∀ a ∈ blocksOf C live, a ≠ b := by
    intro a ha
    have h1 := hEndb a ha
    have h2 : a < footEnd st a := by
      unfold footEnd
      omega
    omega
  have hfootFold : ∀ a, a ≠ b → footEnd stF a = footEnd st a := by
    intro a h1
    unfold footEnd
    rw [hFmem a h1]
  have hfootFb : footEnd stF b = b + chunk := by
    unfold footEnd
    rw [hFb]
    show b + HEADER_SIZE + (chunk - HEADER_SIZE) = _
    omega
  have hchainneb : ∀ x ∈ C, x ≠ b := fun x hx => holdne x (chain_mem_blocksOf hx)
  have hclass : ∀ a, a ∈ blocksOf C ((b + HEADER_SIZE) :: live) →
      a = b ∨ (a ∈ blocksOf C live ∧ a ≠ b) := by
    intro a ha
    rcases List.mem_append.mp ha with h | h
    · exact Or.inr ⟨chain_mem_blocksOf h, hchainneb a h⟩
    · rcases List.mem_map.mp h with ⟨p, hp, rfl⟩
      rcases List.mem_cons.mp hp with rfl | hp'
      · left
        omega
      · exact Or.inr ⟨live_mem_blocksOf hp', holdne _ (live_mem_blocksOf hp')⟩
  refine ⟨C, ⟨?_, hNd, ?_, ?_, ?_, ?_, ?_⟩, ?_, ?_, hFbrk⟩
  · -- chain
    rw [hFfl]
    refine chain_frame ?_ hCh
    intro x hx
    exact hFmem x (hchainneb x hx)
  · -- chain blocks free
    intro x hx
    rw [hFmem x (hchainneb x hx)]
    exact hCF x hx
  · -- live pointers
    intro p hp
    rcases List.mem_cons.mp hp with rfl | hp'
    · refine ⟨by omega, ?_⟩
      have he : b + HEADER_SIZE - HEADER_SIZE = b := by omega
      rw [he, hFb]
    · refine ⟨(hLF p hp').1, ?_⟩
      rw [hFmem _ (holdne _ (live_mem_blocksOf hp'))]
      exact (hLF p hp').2
  · -- pairwise disjoint
    intro a ha a' ha' hne
    rcases hclass a ha with hab1 | ⟨haC, hab⟩ <;>
      rcases hclass a' ha' with hab2 | ⟨ha'C, ha'b⟩
    · exact absurd (hab1.trans hab2.symm) hne
    · have hD := hEndb a' ha'C
      rw [hab1, hfootFb, hfootFold a' ha'b]
      omega
    · have hD := hEndb a haC
      rw [hab2, hfootFold a hab, hfootFb]
      omega
    · rw [hfootFold a hab, hfootFold a' ha'b]
      exact hDisj a haC a' ha'C hne
  · -- footprints below the break
    intro a ha
    rcases hclass a ha with hab1 | ⟨haC, hab⟩
    · rw [hab1, hfootFb, hFbrk]
    · rw [hfootFold a hab, hFbrk]
      have := hEndb a haC
      omega
  · -- break within the arena
    rw [hFbrk]
    omega
  · -- fresh block off the chain
    intro hmem
    exact absurd rfl (hchainneb b hmem)
  · -- the fresh block fits the request
    rw [h2b]
    show sz ≤ chunk - HEADER_SIZE
    omega

/-- Preservation of the invariant along the growth path (first-fit miss),
including the final marking of the fresh block as allocated. -/
theorem grow_preserv {st : HeapState} {C live : List Nat} {sz : Nat}
    (hI : Inv st C live)
    (hmiss : ∀ x ∈ C, ¬((st.mem x).free = true ∧ sz ≤ (st.mem x).size))
    (hszM : sz ≤ HEAP_SIZE) :
    find_free_block st sz = grow_heap st sz ∧
    ((grow_heap st sz).1 = none → (grow_heap st sz).2 = st) ∧
    (∀ b, (grow_heap st sz).1 = some b →
      b = st.brk ∧
      ∃ C',
        Inv (setHeader (grow_heap st sz).2 b
              { (grow_heap st sz).2.mem b with free := false })
            C' ((b + HEADER_SIZE) :: live) ∧
        b ∉ C' ∧
        sz ≤ ((grow_heap st sz).2.mem b).size ∧
        st.brk ≤ (grow_heap st sz).2.brk) := by
  obtain ⟨hCh, hNd, hCF, hLF, hDisj, hEnd, hBrk⟩ := hI
  have hIfull : Inv st C live := ⟨hCh, hNd, hCF, hLF, hDisj, hEnd, hBrk⟩
  have hH24 : HEADER_SIZE = 24 := rfl
  have hM32 : MIN_BLOCK_SIZE = 32 := MIN_BLOCK_SIZE_eq
  have hHeap : HEAP_SIZE = 1048576 := rfl
  have hM64 : M64 = 18446744073709551616 := by norm_num [M64]
  have hlen : C.length < FUEL := by
    have h1 : C.length ≤ HEAP_SIZE :=
      chain_nodup_length_le hNd
        (fun x hx =>
          lt_of_lt_of_le (blocksOf_lt_brk hIfull x (chain_mem_blocksOf hx)) hBrk)
    have hF : FUEL = 2 * HEAP_SIZE + 2 := rfl
    omega
  have hfind : find_free_block st sz = grow_heap st sz :=
    find_scan_miss hCh FUEL none hmiss hlen
  have hn : sz + HEADER_SIZE < M64 := by omega
  have hmaxb : max (sz + HEADER_SIZE) (1024 * 16) ≤ HEAP_SIZE + HEADER_SIZE :=
    max_le (by omega) (by omega)
  have hbw : st.brk + max (sz + HEADER_SIZE) (1024 * 16) < M64 := by omega
  refine ⟨hfind, fun h => grow_none_state h, ?_⟩
  intro b hb
  by_cases hoom : HEAP_SIZE < st.brk + max (sz + HEADER_SIZE) (1024 * 16)
  · rw [grow_spec_none hn hbw hoom] at hb
    exact absurd hb (by simp)
  · push_neg at hoom
    have hfst : (grow_heap st sz).1 = some st.brk := by
      rw [grow_spec_some hn hbw hoom]
    obtain rfl : b = st.brk := by
      rw [hfst] at hb
      exact (Option.some.inj hb).symm
    refine ⟨rfl, ?_⟩
    have h2b : ({ setHeader st st.brk
        ⟨max (sz + HEADER_SIZE) (1024 * 16) - HEADER_SIZE, none, false⟩ with
        brk := st.brk + max (sz + HEADER_SIZE) (1024 * 16) } : HeapState).mem st.brk =
        ⟨max (sz + HEADER_SIZE) (1024 * 16) - HEADER_SIZE, none, false⟩ :=
      setHeader_mem_self _ _ _
    have h2mem : ∀ x, x ≠ st.brk → ({ setHeader st st.brk
        ⟨max (sz + HEADER_SIZE) (1024 * 16) - HEADER_SIZE, none, false⟩ with
        brk := st.brk + max (sz + HEADER_SIZE) (1024 * 16) } : HeapState).mem x = st.mem x :=
      fun x hx => setHeader_mem_ne _ _ _ hx
    have h2fl : ({ setHeader st st.brk
        ⟨max (sz + HEADER_SIZE) (1024 * 16) - HEADER_SIZE, none, false⟩ with
        brk := st.brk + max (sz + HEADER_SIZE) (1024 * 16) } : HeapState).freeList =
        st.freeList := rfl
    have h2brk : ({ setHeader st st.brk
        ⟨max (sz + HEADER_SIZE) (1024 * 16) - HEADER_SIZE, none, false⟩ with
        brk := st.brk + max (sz + HEADER_SIZE) (1024 * 16) } : HeapState).brk =
        st.brk + max (sz + HEADER_SIZE) (1024 * 16) := rfl
    have hchunk : sz + HEADER_SIZE ≤ max (sz + HEADER_SIZE) (1024 * 16) :=
      le_max_left _ _
    by_cases hguard : sz + MIN_BLOCK_SIZE <
        max (sz + HEADER_SIZE) (1024 * 16) - HEADER_SIZE
    · have heq2 : (grow_heap st sz).2 = split_block
          ({ setHeader st st.brk
              ⟨max (sz + HEADER_SIZE) (1024 * 16) - HEADER_SIZE, none, false⟩ with
            brk := st.brk + max (sz + HEADER_SIZE) (1024 * 16) } : HeapState)
          st.brk sz := by
        rw [grow_spec_some hn hbw hoom, if_pos hguard]
      rw [heq2]
      obtain ⟨C', hInv, hnotin, hsz, hbrk⟩ :=
        fresh_inv_split hCh hNd hCF hLF hDisj hEnd h2b h2mem h2fl h2brk hchunk
          (by omega) hguard
      exact ⟨C', hInv, hnotin, hsz, by omega⟩
    · have heq2 : (grow_heap st sz).2 =
          ({ setHeader st st.brk
              ⟨max (sz + HEADER_SIZE) (1024 * 16) - HEADER_SIZE, none, false⟩ with
            brk := st.brk + max (sz + HEADER_SIZE) (1024 * 16) } : HeapState) := by
        rw [grow_spec_some hn hbw hoom, if_neg hguard]
      rw [heq2]
      obtain ⟨C', hInv, hnotin, hsz, hbrk⟩ :=
        fresh_inv_whole hCh hNd hCF hLF hDisj hEnd h2b h2mem h2fl h2brk hchunk
          (by omega)
      exact ⟨C', hInv, hnotin, hsz, by omega⟩

/-- Invariant preservation for a complete `HmmAlloc` call: failed calls leave
the state unchanged, and successful calls extend the live set with a block
large enough for the aligned request, never on the free list, without moving
the break backwards. -/
theorem alloc_preserv {st : HeapState} {C live : List Nat} {n : Nat}
    (hI : Inv st C live) (hn0 : n ≠ 0) (hnM : n ≤ HEAP_SIZE) :
    ((HmmAlloc st n).1 = none → (HmmAlloc st n).2 = st) ∧
    (∀ p, (HmmAlloc st n).1 = some p →
      ∃ C', Inv (HmmAlloc st n).2 C' (p :: live) ∧
        (p - HEADER_SIZE) ∉ C' ∧
        ALIGN n ≤ ((HmmAlloc st n).2.mem (p - HEADER_SIZE)).size ∧
        st.brk ≤ (HmmAlloc st n).2.brk) := by
  refine ⟨fun h => alloc_none_state h, ?_⟩
  intro p hp
  have hM64 : M64 = 18446744073709551616 := by norm_num [M64]
  have hM32 : MIN_BLOCK_SIZE = 32 := MIN_BLOCK_SIZE_eq
  have hszM : ALIGN n ≤ HEAP_SIZE := ALIGN_le_HEAP hnM
  cases hfq : C.find? (fun x => (st.mem x).free && decide (ALIGN n ≤ (st.mem x).size)) with
  | none =>
    have hmiss : ∀ x ∈ C, ¬((st.mem x).free = true ∧ ALIGN n ≤ (st.mem x).size) := by
      intro x hx
      have hnx := List.find?_eq_none.mp hfq x hx
      simpa using hnx
    obtain ⟨hfind, hnone, hsome⟩ := grow_preserv hI hmiss hszM
    cases hg : (grow_heap st (ALIGN n)).1 with
    | none =>
      have hfn : (find_free_block st (ALIGN n)).1 = none := by rw [hfind]; exact hg
      rw [alloc_eq_none_of_find hn0 hfn] at hp
      exact absurd hp (by simp)
    | some b =>
      have hfb : (find_free_block st (ALIGN n)).1 = some b := by rw [hfind]; exact hg
      rw [alloc_eq_some_of_find hn0 hfb] at hp ⊢
      obtain rfl : b + HEADER_SIZE = p := by simpa using hp
      obtain ⟨hbeq, C', hInv, hnot, hsz, hbrk⟩ := hsome b hg
      have h2 : (find_free_block st (ALIGN n)).2 = (grow_heap st (ALIGN n)).2 := by
        rw [hfind]
      rw [h2]
      have hpe : b + HEADER_SIZE - HEADER_SIZE = b := by
        have : HEADER_SIZE = 24 := rfl
        omega
      rw [hpe]
      refine ⟨C', hInv, hnot, ?_, hbrk⟩
      show ALIGN n ≤ ((setHeader (grow_heap st (ALIGN n)).2 b
        { (grow_heap st (ALIGN n)).2.mem b with free := false }).mem b).size
      rw [setHeader_mem_self]
      exact hsz
  | some b =>
    obtain ⟨hqb, M, R, hdec, hmissb⟩ := List.find?_eq_some.mp hfq
    have hqual : (st.mem b).free = true ∧ ALIGN n ≤ (st.mem b).size := by
      simpa using hqb
    have hmiss : ∀ x ∈ M, ¬((st.mem x).free = true ∧ ALIGN n ≤ (st.mem x).size) := by
      intro x hx hq
      have hnx := hmissb x hx
      simp at hnx
      rcases hnx with h | h
      · rw [hq.1] at h
        exact Bool.noConfusion h
      · have := hq.2
        omega
    obtain ⟨hfst, C', hInv, hnot, hsz, hbrk⟩ := hit_preserv hI hdec hmiss hqual
    rw [alloc_eq_some_of_find hn0 hfst] at hp ⊢
    obtain rfl : b + HEADER_SIZE = p := by simpa using hp
    have hpe : b + HEADER_SIZE - HEADER_SIZE = b := by
      have : HEADER_SIZE = 24 := rfl
      omega
    rw [hpe]
    refine ⟨C', hInv, hnot, ?_, le_of_eq hbrk.symm⟩
    show ALIGN n ≤ ((setHeader (find_free_block st (ALIGN n)).2 b
      { (find_free_block st (ALIGN n)).2.mem b with free := false }).mem b).size
    rw [setHeader_mem_self]
    exact hsz

/-! ### Reachable states -/

/-- States and outstanding payload pointers reachable from the fresh arena
by `HmmAlloc` calls alone (successful or failed), each successful request at
most the arena size — the regime in which none of the allocator's `size_t`
or pointer computations wrap, so the per-offset header map agrees with the
byte-level heap (all header writes land on pairwise disjoint 24-byte
ranges). -/
inductive ReachedA : HeapState → List Nat → Prop
  | init : ReachedA initState []
  | allocOk {st : HeapState} {live : List Nat} {n p : Nat} :
      ReachedA st live → n ≤ HEAP_SIZE →
      (HmmAlloc st n).1 = some p → ReachedA (HmmAlloc st n).2 (p :: live)
  | allocFail {st : HeapState} {live : List Nat} {n : Nat} :
      ReachedA st live → (HmmAlloc st n).1 = none → ReachedA (HmmAlloc st n).2 live

/-- States reachable from the fresh arena by arbitrary `HmmAlloc` and
`HmmFree` calls, with no precondition at all on the arguments. -/
inductive Reached : HeapState → Prop
  | init : Reached initState
  | alloc {st : HeapState} (n : Nat) : Reached st → Reached (HmmAlloc st n).2
  | free {st : HeapState} (p : Option Nat) : Reached st → Reached (HmmFree st p)

/-- Every state reached by allocations alone satisfies the allocator
invariant for some free-list chain. -/
theorem reachedA_inv {st : HeapState} {live : List Nat} (h : ReachedA st live) :
    ∃ C, Inv st C live := by
  induction h with
  | init => exact ⟨[], inv_initState⟩
  | @allocOk st live n p hR hn hp ih =>
    obtain ⟨C, hI⟩ := ih
    have hn0 : n ≠ 0 := by
      intro he
      subst he
      have : HmmAlloc st 0 = (none, st) := by
        unfold HmmAlloc
        rw [if_pos rfl]
      rw [this] at hp
      exact Option.noConfusion hp
    obtain ⟨C1, hI1, -, -, -⟩ := (alloc_preserv hI hn0 hn).2 p hp
    exact ⟨C1, hI1⟩
  | @allocFail st live n hR hp ih =>
    obtain ⟨C, hI⟩ := ih
    rw [alloc_none_state hp]
    exact ⟨C, hI⟩

/-! ### Behaviour of a free followed by a reallocation -/

theorem sumBlocks_le {st : HeapState} {L : List Nat}
    (h : ∀ x ∈ L, (st.mem x).size ≤ HEAP_SIZE) :
    sumBlocks (recsOf st L) ≤ L.length * (HEAP_SIZE + HEADER_SIZE) := by
  induction L with
  | nil => simp [recsOf, sumBlocks]
  | cons c L ih =>
    rw [sumBlocks_recsOf_cons]
    have h1 := h c (List.mem_cons_self _ _)
    have h2 := ih (fun x hx => h x (List.mem_cons_of_mem _ hx))
    simp only [List.length_cons]
    rw [Nat.succ_mul]
    omega

/-- After a just-freed block has been marked free and head-inserted
(the state `st2`), the merger keeps it at the head of the free list, still
free, with a size that can only have grown. -/
theorem premerge_head {st1 st2 : HeapState} {C1 live : List Nat} {p : Nat}
    (hI1 : Inv st1 C1 (p :: live)) (hnot : (p - HEADER_SIZE) ∉ C1)
    (h2hdr : st2.mem (p - HEADER_SIZE) =
      ⟨(st1.mem (p - HEADER_SIZE)).size, st1.freeList, true⟩)
    (h2mem : ∀ x, x ≠ p - HEADER_SIZE → st2.mem x = st1.mem x)
    (h2fl : st2.freeList = some (p - HEADER_SIZE))
    (h2brk : st2.brk = st1.brk) :
    (merge_free_blocks st2).freeList = some (p - HEADER_SIZE) ∧
    ((merge_free_blocks st2).mem (p - HEADER_SIZE)).free = true ∧
    (st1.mem (p - HEADER_SIZE)).size ≤
      ((merge_free_blocks st2).mem (p - HEADER_SIZE)).size ∧
    (∃ R, ChainOk (merge_free_blocks st2) (merge_free_blocks st2).freeList
        ((p - HEADER_SIZE) :: R)) ∧
    (merge_free_blocks st2).brk = st2.brk := by
  obtain ⟨hCh, hNd, hCF, hLF, hDisj, hEnd, hBrk⟩ := hI1
  have hI1' : Inv st1 C1 (p :: live) := ⟨hCh, hNd, hCF, hLF, hDisj, hEnd, hBrk⟩
  have hH : HEADER_SIZE = 24 := rfl
  have hF : FUEL = 2 * HEAP_SIZE + 2 := rfl
  have hhdrB : p - HEADER_SIZE ∈ blocksOf C1 (p :: live) :=
    live_mem_blocksOf (List.mem_cons_self _ _)
  have hC2 : ChainOk st2 st2.freeList ((p - HEADER_SIZE) :: C1) := by
    rw [h2fl]
    refine ChainOk.cons ?_
    rw [h2hdr]
    show ChainOk st2 st1.freeList C1
    refine chain_frame ?_ hCh
    intro x hx
    exact h2mem x (fun he => hnot (he ▸ hx))
  have hnd2 : ((p - HEADER_SIZE) :: C1).Nodup := List.nodup_cons.mpr ⟨hnot, hNd⟩
  have hlt2 : ∀ x ∈ (p - HEADER_SIZE) :: C1, x < HEAP_SIZE := by
    intro x hx
    rcases List.mem_cons.mp hx with h | h
    · subst h
      have := blocksOf_lt_brk hI1' _ hhdrB
      omega
    · have := blocksOf_lt_brk hI1' x (chain_mem_blocksOf h)
      omega
  have hlen2 : ((p - HEADER_SIZE) :: C1).length ≤ HEAP_SIZE :=
    chain_nodup_length_le hnd2 hlt2
  have hsizes : ∀ x ∈ (p - HEADER_SIZE) :: C1, (st2.mem x).size ≤ HEAP_SIZE := by
    intro x hx
    rcases List.mem_cons.mp hx with h | h
    · subst h
      rw [h2hdr]
      exact blocksOf_size_le hI1' _ hhdrB
    · rw [h2mem x (fun he => hnot (he ▸ h))]
      exact blocksOf_size_le hI1' x (chain_mem_blocksOf h)
  have hsum : sumBlocks (recsOf st2 ((p - HEADER_SIZE) :: C1)) < M64 := by
    have h1 := sumBlocks_le hsizes
    have h2 : ((p - HEADER_SIZE) :: C1).length * (HEAP_SIZE + HEADER_SIZE) ≤
        HEAP_SIZE * (HEAP_SIZE + HEADER_SIZE) :=
      Nat.mul_le_mul_right _ hlen2
    have h3 : HEAP_SIZE * (HEAP_SIZE + HEADER_SIZE) < M64 := by
      norm_num [HEAP_SIZE, HEADER_SIZE, M64]
    omega
  have hfuel : 2 * ((p - HEADER_SIZE) :: C1).length ≤ FUEL := by omega
  obtain ⟨M, hrecs, hchain, hframe, hhead⟩ :=
    merge_blocks_spec hC2 hnd2 hsum hfuel
  obtain ⟨M2, rfl⟩ : ∃ M2, M = (p - HEADER_SIZE) :: M2 := by
    cases M with
    | nil => exact absurd hhead (by simp)
    | cons m M2 =>
      simp only [List.head?_cons] at hhead
      exact ⟨M2, by rw [Option.some.inj hhead]⟩
  have hfree2 : (st2.mem (p - HEADER_SIZE)).free = true := by rw [h2hdr]
  obtain ⟨S, tail, hpass, hle⟩ :=
    merge_pass_head (recsOf st2 C1)
      ((p - HEADER_SIZE), (st2.mem (p - HEADER_SIZE)).size,
        (st2.mem (p - HEADER_SIZE)).free)
  dsimp only at hpass
  rw [recsOf_cons] at hrecs
  rw [recsOf_cons] at hrecs
  rw [hpass] at hrecs
  have hh := (List.cons_eq_cons.mp hrecs).1
  simp only [Prod.mk.injEq] at hh
  have hsize2 : ((merge_free_blocks st2).mem (p - HEADER_SIZE)).size = S := hh.2.1
  have hfreeM : ((merge_free_blocks st2).mem (p - HEADER_SIZE)).free = true := by
    rw [hh.2.2, hfree2]
  have hflM : (merge_free_blocks st2).freeList = some (p - HEADER_SIZE) :=
    (chain_cons_inv hchain).1
  refine ⟨hflM, hfreeM, ?_, ⟨M2, hchain⟩, merge_free_blocks_brk st2⟩
  have hs1 : (st1.mem (p - HEADER_SIZE)).size = (st2.mem (p - HEADER_SIZE)).size := by
    rw [h2hdr]
  rw [hs1, hsize2]
  exact hle

/-! ### Concrete states used by the claim-level witnesses and counterexamples -/

/-- A free list of two free blocks at offsets 0 and 100, of sizes 8 and 64. -/
def twoFreeState : HeapState :=
  { mem := fun o => if o = 0 then ⟨8, some 100, true⟩
      else if o = 100 then ⟨64, none, true⟩ else initHeader,
    brk := 200, freeList := some 0 }

theorem twoFreeState_chain : ChainOk twoFreeState twoFreeState.freeList [0, 100] := by
  have h0 : twoFreeState.freeList = some 0 := rfl
  rw [h0]
  refine ChainOk.cons ?_
  have h1 : (twoFreeState.mem 0).next = some 100 := rfl
  rw [h1]
  refine ChainOk.cons ?_
  have h2 : (twoFreeState.mem 100).next = none := rfl
  rw [h2]
  exact ChainOk.nil

/-- State after `HmmAlloc(8)` on the fresh arena (payload pointer 24). -/
def c1a : HeapState := (HmmAlloc initState 8).2

/-- State after a second `HmmAlloc(8)` (payload pointer 56). -/
def c1b : HeapState := (HmmAlloc c1a 8).2

/-- State after a third `HmmAlloc(8)` (payload pointer 88). -/
def c1c : HeapState := (HmmAlloc c1b 8).2

/-- State after `HmmFree(24)` of the first of the three allocations. -/
def c1d : HeapState := HmmFree c1c (some 24)

/-- State after the subsequent `HmmAlloc(16296)` (payload pointer 24 again). -/
def c1e : HeapState := (HmmAlloc c1d 16296).2

/-- State after `HmmAlloc(2^64 - 32)` on `c1a`: the request passes the
wrapped out-of-memory comparison and wraps the break from 16384 down to
16376 (payload pointer 16408). -/
def c1w : HeapState := (HmmAlloc c1a (M64 - 32)).2

/-- State after `HmmFree(24)` of the second of two 8-byte allocations. -/
def c7d : HeapState := HmmFree c1b (some 24)

/-- A free list of two blocks whose headers are byte-disjoint (offsets 0 and
100), list-adjacent and both free, the head carrying a wrapped-around huge
size field of the kind the public interface itself produces (see `C1_cex`):
the merger's absorbing addition overflows on it. -/
def mergeWrapState : HeapState :=
  { mem := fun o => if o = 0 then ⟨M64 - 32, some 100, true⟩
      else if o = 100 then ⟨8, none, true⟩ else initHeader,
    brk := 200, freeList := some 0 }

/-- A free list whose single block (offset 0) carries a wrapped-around huge
size field, with the break already at the end of the arena. -/
def cexRTState : HeapState :=
  { mem := fun o => if o = 0 then ⟨M64 - 32, some 100, true⟩
      else if o = 100 then ⟨8, none, true⟩ else initHeader,
    brk := HEAP_SIZE, freeList := some 0 }

/-- A state whose free list already contains the block offset 0 at which the
break sits, so heap growth carves its new block on top of a chained header. -/
def cexGrowState : HeapState :=
  { mem := fun o => if o = 0 then ⟨0, none, true⟩ else initHeader,
    brk := 0, freeList := some 0 }

/-- A single free block of size 40 at offset 0, used to drive `split_block`
with a near-`SIZE_MAX` request. -/
def cexSplitState : HeapState :=
  { mem := fun o => if o = 0 then ⟨40, none, true⟩ else initHeader,
    brk := 64, freeList := none }

/-- A free block of size 48 whose header sits near the top of the address
space, so the split offset computation wraps around. -/
def cexSplitState2 : HeapState :=
  { mem := fun o => if o = M64 - 24 then ⟨48, none, true⟩ else initHeader,
    brk := 0, freeList := none }

/-! ### Observable result of a successful heap growth -/

theorem grow_result_split {st st2 : HeapState} {C : List Nat} {n : Nat}
    (hC : ChainOk st st.freeList C) (hlt : ∀ x ∈ C, x + HEADER_SIZE ≤ st.brk)
    (h2b : st2.mem st.brk =
      ⟨max (n + HEADER_SIZE) (1024 * 16) - HEADER_SIZE, none, false⟩)
    (h2mem : ∀ x, x ≠ st.brk → st2.mem x = st.mem x)
    (h2fl : st2.freeList = st.freeList)
    (h2brk : st2.brk = st.brk + max (n + HEADER_SIZE) (1024 * 16))
    (hbrk : st.brk ≤ HEAP_SIZE)
    (hckHeap : max (n + HEADER_SIZE) (1024 * 16) ≤ HEAP_SIZE)
    (hguard : n + MIN_BLOCK_SIZE < max (n + HEADER_SIZE) (1024 * 16) - HEADER_SIZE) :
    (split_block st2 st.brk n).brk = st.brk + max (n + HEADER_SIZE) (1024 * 16) ∧
    ((split_block st2 st.brk n).mem st.brk).free = false ∧
    ∃ D, ChainOk (split_block st2 st.brk n) (split_block st2 st.brk n).freeList D ∧
      st.brk ∉ D := by
  have hH : HEADER_SIZE = 24 := rfl
  have hW : WORD = 8 := rfl
  have hM32 : MIN_BLOCK_SIZE = 32 := MIN_BLOCK_SIZE_eq
  have hM64 : M64 = 18446744073709551616 := by norm_num [M64]
  have hHeap : HEAP_SIZE = 1048576 := rfl
  have hck16 : 1024 * 16 ≤ max (n + HEADER_SIZE) (1024 * 16) := le_max_right _ _
  have hsz2 : (st2.mem st.brk).size =
      max (n + HEADER_SIZE) (1024 * 16) - HEADER_SIZE := by rw [h2b]
  obtain ⟨hfl, hnbm, hbm, hframe⟩ :=
    @split_effect st2 st.brk n (by omega) (by omega) (by omega) (by omega)
  refine ⟨?_, ?_, ⟨(st.brk + HEADER_SIZE + n) :: C, ?_, ?_⟩⟩
  · rw [split_block_brk, h2brk]
  · rw [hbm]
    show (st2.mem st.brk).free = false
    rw [h2b]
  · rw [hfl]
    refine ChainOk.cons ?_
    rw [hnbm]
    show ChainOk (split_block st2 st.brk n) st2.freeList C
    rw [h2fl]
    refine chain_frame ?_ hC
    intro x hx
    have hx1 : x ≠ st.brk := by have := hlt x hx; omega
    have hx2 : x ≠ st.brk + HEADER_SIZE + n := by have := hlt x hx; omega
    rw [hframe x hx1 hx2, h2mem x hx1]
  · intro hin
    rcases List.mem_cons.mp hin with h | h
    · omega
    · have := hlt _ h
      omega

theorem grow_result_whole {st st2 : HeapState} {C : List Nat} {n : Nat}
    (hC : ChainOk st st.freeList C) (hlt : ∀ x ∈ C, x + HEADER_SIZE ≤ st.brk)
    (h2b : st2.mem st.brk =
      ⟨max (n + HEADER_SIZE) (1024 * 16) - HEADER_SIZE, none, false⟩)
    (h2mem : ∀ x, x ≠ st.brk → st2.mem x = st.mem x)
    (h2fl : st2.freeList = st.freeList) :
    (st2.mem st.brk).free = false ∧
    ∃ D, ChainOk st2 st2.freeList D ∧ st.brk ∉ D := by
  have hH : HEADER_SIZE = 24 := rfl
  refine ⟨by rw [h2b], ⟨C, ?_, ?_⟩⟩
  · rw [h2fl]
    refine chain_frame ?_ hC
    intro x hx
    have := hlt x hx
    exact h2mem x (by omega)
  · intro hin
    have := hlt _ hin
    omega

/-! ### The claims -/

/-- C1 (corrected): for every sequence of `HmmAlloc` calls from the fresh
arena with each successful request at most the arena size `HEAP_SIZE`, any
two distinct outstanding payload pointers head pairwise disjoint blocks:
their footprints `[header, header + HEADER_SIZE + size)` do not overlap.
The original claim over sequences that also contain `HmmFree` calls, or
with larger requests, is refuted by `C1_cex`. -/
theorem C1_no_overlap {st : HeapState} {live : List Nat} {p q : Nat}
    (hR : ReachedA st live) (hp : p ∈ live) (hq : q ∈ live) (hpq : p ≠ q) :
    footEnd st (p - HEADER_SIZE) ≤ q - HEADER_SIZE ∨
    footEnd st (q - HEADER_SIZE) ≤ p - HEADER_SIZE := by
  obtain ⟨C, hI⟩ := reachedA_inv hR
  have hH : HEADER_SIZE = 24 := rfl
  have hpp := (hI.2.2.2.1 p hp).1
  have hqq := (hI.2.2.2.1 q hq).1
  have hne : p - HEADER_SIZE ≠ q - HEADER_SIZE := by omega
  exact hI.2.2.2.2.1 _ (live_mem_blocksOf hp) _ (live_mem_blocksOf hq) hne

/-- Witness for C1 at the state after two 8-byte allocations: the live
payloads 56 and 24 head disjoint blocks. -/
theorem C1_no_overlap_witness :
    (56 : Nat) ∈ [56, 24] ∧ (24 : Nat) ∈ [56, 24] ∧ (56 : Nat) ≠ 24 ∧
    (footEnd c1b (56 - HEADER_SIZE) ≤ 24 - HEADER_SIZE ∨
     footEnd c1b (24 - HEADER_SIZE) ≤ 56 - HEADER_SIZE) := by
  have h1 : ReachedA c1a [24] :=
    ReachedA.allocOk ReachedA.init (by decide) (by decide)
  have h2 : ReachedA c1b [56, 24] :=
    ReachedA.allocOk h1 (by decide) (by decide)
  exact ⟨by decide, by decide, by decide,
    C1_no_overlap h2 (by decide) (by decide) (by decide)⟩

/-- Counterexample to C1 as stated. First trace (all preconditions of the
public interface respected): `HmmAlloc(8), HmmAlloc(8), HmmAlloc(8),
HmmFree(24), HmmAlloc(16296)` — the merger absorbed a list-adjacent but not
memory-adjacent free block, so the final state holds outstanding allocated
blocks at offsets 0 and 32 whose ranges `[header, header + size)` overlap
(block 0 spans `[0, 16296)`, which contains block 32).  Second trace,
allocate-only with every request at most `2^64 - MIN_BLOCK_SIZE`:
`HmmAlloc(8), HmmAlloc(2^64 - 32), HmmAlloc(8)` — the second request passes
the wrapped out-of-memory comparison and wraps the break from 16384 down to
16376, and the third call hands out the block at 16376, whose footprint
`[16376, 16408)` overlaps the outstanding block headed at 16384. -/
theorem C1_cex :
    ((HmmAlloc initState 8).1 = some 24 ∧
     (HmmAlloc c1a 8).1 = some 56 ∧
     (HmmAlloc c1b 8).1 = some 88 ∧
     (HmmAlloc c1d 16296).1 = some 24 ∧
     (c1e.mem 0).free = false ∧ (c1e.mem 32).free = false ∧
     (0 : Nat) ≠ 32 ∧ 32 < 0 + (c1e.mem 0).size) ∧
    ((HmmAlloc c1a (M64 - 32)).1 = some 16408 ∧
     (HmmAlloc c1w 8).1 = some 16400 ∧
     ((HmmAlloc c1w 8).2.mem 16376).free = false ∧
     ((HmmAlloc c1w 8).2.mem 16384).free = false ∧
     ((HmmAlloc c1w 8).2.mem 16376).size = 8 ∧
     (16376 : Nat) ≠ 16384 ∧
     16384 < 16376 + HEADER_SIZE + ((HmmAlloc c1w 8).2.mem 16376).size) := by decide

/-- C2 (corrected): the merger is a single forward pass in list order that
absorbs the successor of any free-free adjacent pair and unlinks it —
provided the chain's headers occupy pairwise disjoint 24-byte ranges (so
the struct writes of the source do not alias, and the per-offset header map
coincides with the byte-level heap) and the absorbed sizes do not overflow
`2^64`.  `merge_pass` is modelled from the spec's words with exact
arithmetic; the theorem states that `merge_free_blocks` realises exactly
that pass on the record view of the chain, keeps the head, and leaves every
header byte-disjoint from the chain untouched.  The original claim with
unbounded sizes is refuted by `C2_cex`. -/
theorem C2_merge {st : HeapState} {L : List Nat}
    (hC : ChainOk st st.freeList L) (hnd : L.Nodup)
    (hsep : ∀ a ∈ L, ∀ b ∈ L, a ≠ b → a + HEADER_SIZE ≤ b ∨ b + HEADER_SIZE ≤ a)
    (hsum : sumBlocks (recsOf st L) < M64) (hlen : L.length ≤ HEAP_SIZE) :
    ∃ M : List Nat,
      recsOf (merge_free_blocks st) M = merge_pass (recsOf st L) ∧
      ChainOk (merge_free_blocks st) (merge_free_blocks st).freeList M ∧
      (∀ x, (∀ c ∈ L, x + HEADER_SIZE ≤ c ∨ c + HEADER_SIZE ≤ x) →
        (merge_free_blocks st).mem x = st.mem x) ∧
      M.head? = L.head? := by
  have hF : FUEL = 2 * HEAP_SIZE + 2 := rfl
  have hH : (0 : Nat) < HEADER_SIZE := by norm_num [HEADER_SIZE]
  obtain ⟨M, h1, h2, h3, h4⟩ := merge_blocks_spec hC hnd hsum (by omega)
  refine ⟨M, h1, h2, ?_, h4⟩
  intro x hx
  refine h3 x ?_
  intro hin
  have := hx x hin
  omega

/-- Witness for C2 on a two-block free list (sizes 8 and 64, both free,
headers byte-disjoint at offsets 0 and 100): the merger performs the spec's
exact pass. -/
theorem C2_merge_witness :
    [0, 100].Nodup ∧
    (∀ a ∈ [0, 100], ∀ b ∈ [0, 100], a ≠ b →
      a + HEADER_SIZE ≤ b ∨ b + HEADER_SIZE ≤ a) ∧
    sumBlocks (recsOf twoFreeState [0, 100]) < M64 ∧
    [0, 100].length ≤ HEAP_SIZE ∧
    (∃ M : List Nat,
      recsOf (merge_free_blocks twoFreeState) M =
        merge_pass (recsOf twoFreeState [0, 100]) ∧
      ChainOk (merge_free_blocks twoFreeState)
        (merge_free_blocks twoFreeState).freeList M ∧
      (∀ x, (∀ c ∈ [0, 100], x + HEADER_SIZE ≤ c ∨ c + HEADER_SIZE ≤ x) →
        (merge_free_blocks twoFreeState).mem x = twoFreeState.mem x) ∧
      M.head? = [0, 100].head?) :=
  ⟨by decide, by decide, by decide, by decide,
   C2_merge twoFreeState_chain (by decide) (by decide) (by decide) (by decide)⟩

/-- Counterexample to C2 as stated: `mergeWrapState` is a free list of two
list-adjacent free blocks whose headers are byte-disjoint (offsets 0 and
100, so every struct write of the source lands exactly where the model puts
it), with sizes `2^64 - 32` and 8 — the head's wrapped size field is of the
kind a single near-`SIZE_MAX` allocation leaves behind (`C1_cex`, `C6_cex`).
The merger should set the head's size to
`current.size + current.next.size + HEADER_SIZE`, which is exactly `2^64`,
but the `size_t` addition wraps and it stores 0. -/
theorem C2_cex :
    (mergeWrapState.mem 0).free = true ∧ mergeWrapState.freeList = some 0 ∧
    (mergeWrapState.mem 0).next = some 100 ∧
    (mergeWrapState.mem 100).free = true ∧ (mergeWrapState.mem 100).next = none ∧
    0 + HEADER_SIZE ≤ 100 ∧
    ((merge_free_blocks mergeWrapState).mem 0).size = 0 ∧
    ((merge_free_blocks mergeWrapState).mem 0).next = none ∧
    (mergeWrapState.mem 0).size + (mergeWrapState.mem 100).size + HEADER_SIZE = M64 ∧
    (0 : Nat) ≠ M64 := by decide

/-- C3 (corrected): heap growth for a request `n` that misses the free list
uses chunk size `max(n + HEADER_SIZE, 16 KiB)`, fails exactly when the break
plus that chunk would pass the arena capacity — leaving the state unchanged —
and otherwise places the new block header at the old break, advances the
break by the chunk, and returns that block marked allocated and off the
free-list chain.  Amended with `n ≤ HEAP_SIZE` (so neither the `size_t`
chunk computation nor the `uintptr_t` out-of-memory comparison and break
advance wrap) and with the free-list chain's headers lying entirely below
the break (so growth's header writes cannot touch them); both are forced by
`C3_cex`. -/
theorem C3_grow {st : HeapState} {C : List Nat} {n : Nat}
    (hC : ChainOk st st.freeList C) (hlt : ∀ x ∈ C, x + HEADER_SIZE ≤ st.brk)
    (hn : n ≤ HEAP_SIZE) (hbrk : st.brk ≤ HEAP_SIZE) :
    (HEAP_SIZE < st.brk + max (n + HEADER_SIZE) (1024 * 16) →
      grow_heap st n = (none, st)) ∧
    (st.brk + max (n + HEADER_SIZE) (1024 * 16) ≤ HEAP_SIZE →
      (grow_heap st n).1 = some st.brk ∧
      (grow_heap st n).2.brk = st.brk + max (n + HEADER_SIZE) (1024 * 16) ∧
      ((grow_heap st n).2.mem st.brk).free = false ∧
      ∃ D, ChainOk (grow_heap st n).2 (grow_heap st n).2.freeList D ∧
        st.brk ∉ D) := by
  have hH : HEADER_SIZE = 24 := rfl
  have hM32 : MIN_BLOCK_SIZE = 32 := MIN_BLOCK_SIZE_eq
  have hM64 : M64 = 18446744073709551616 := by norm_num [M64]
  have hHeap : HEAP_SIZE = 1048576 := rfl
  have hn' : n + HEADER_SIZE < M64 := by omega
  have hmaxb : max (n + HEADER_SIZE) (1024 * 16) ≤ HEAP_SIZE + HEADER_SIZE :=
    max_le (by omega) (by omega)
  have hbw : st.brk + max (n + HEADER_SIZE) (1024 * 16) < M64 := by omega
  refine ⟨fun hoom => grow_spec_none hn' hbw hoom, fun hok => ?_⟩
  have hg := grow_spec_some hn' hbw hok
  have hckn : n + HEADER_SIZE ≤ max (n + HEADER_SIZE) (1024 * 16) := le_max_left _ _
  have hckHeap : max (n + HEADER_SIZE) (1024 * 16) ≤ HEAP_SIZE := by omega
  have hfst : (grow_heap st n).1 = some st.brk := by rw [hg]
  by_cases hguard : n + MIN_BLOCK_SIZE <
      max (n + HEADER_SIZE) (1024 * 16) - HEADER_SIZE
  · have heq : (grow_heap st n).2 =
        split_block
          ({ setHeader st st.brk
              ⟨max (n + HEADER_SIZE) (1024 * 16) - HEADER_SIZE, none, false⟩ with
            brk := st.brk + max (n + HEADER_SIZE) (1024 * 16) }) st.brk n := by
      rw [hg, if_pos hguard]
    have h2b : ({ setHeader st st.brk
        ⟨max (n + HEADER_SIZE) (1024 * 16) - HEADER_SIZE, none, false⟩ with
        brk := st.brk + max (n + HEADER_SIZE) (1024 * 16) } : HeapState).mem st.brk =
        ⟨max (n + HEADER_SIZE) (1024 * 16) - HEADER_SIZE, none, false⟩ :=
      setHeader_mem_self _ _ _
    have h2mem : ∀ x, x ≠ st.brk → ({ setHeader st st.brk
        ⟨max (n + HEADER_SIZE) (1024 * 16) - HEADER_SIZE, none, false⟩ with
        brk := st.brk + max (n + HEADER_SIZE) (1024 * 16) } : HeapState).mem x =
        st.mem x := fun x hx => setHeader_mem_ne _ _ _ hx
    have h2fl : ({ setHeader st st.brk
        ⟨max (n + HEADER_SIZE) (1024 * 16) - HEADER_SIZE, none, false⟩ with
        brk := st.brk + max (n + HEADER_SIZE) (1024 * 16) } : HeapState).freeList =
        st.freeList := rfl
    have h2brk : ({ setHeader st st.brk
        ⟨max (n + HEADER_SIZE) (1024 * 16) - HEADER_SIZE, none, false⟩ with
        brk := st.brk + max (n + HEADER_SIZE) (1024 * 16) } : HeapState).brk =
        st.brk + max (n + HEADER_SIZE) (1024 * 16) := rfl
    obtain ⟨hb1, hb2, hb3⟩ :=
      grow_result_split hC hlt h2b h2mem h2fl h2brk hbrk hckHeap hguard
    refine ⟨hfst, ?_, ?_, ?_⟩
    · rw [heq]
      exact hb1
    · rw [heq]
      exact hb2
    · rw [heq]
      exact hb3
  · have heq : (grow_heap st n).2 =
        ({ setHeader st st.brk
            ⟨max (n + HEADER_SIZE) (1024 * 16) - HEADER_SIZE, none, false⟩ with
          brk := st.brk + max (n + HEADER_SIZE) (1024 * 16) } : HeapState) := by
      rw [hg, if_neg hguard]
    have h2b : ({ setHeader st st.brk
        ⟨max (n + HEADER_SIZE) (1024 * 16) - HEADER_SIZE, none, false⟩ with
        brk := st.brk + max (n + HEADER_SIZE) (1024 * 16) } : HeapState).mem st.brk =
        ⟨max (n + HEADER_SIZE) (1024 * 16) - HEADER_SIZE, none, false⟩ :=
      setHeader_mem_self _ _ _
    have h2mem : ∀ x, x ≠ st.brk → ({ setHeader st st.brk
        ⟨max (n + HEADER_SIZE) (1024 * 16) - HEADER_SIZE, none, false⟩ with
        brk := st.brk + max (n + HEADER_SIZE) (1024 * 16) } : HeapState).mem x =
        st.mem x := fun x hx => setHeader_mem_ne _ _ _ hx
    have h2fl : ({ setHeader st st.brk
        ⟨max (n + HEADER_SIZE) (1024 * 16) - HEADER_SIZE, none, false⟩ with
        brk := st.brk + max (n + HEADER_SIZE) (1024 * 16) } : HeapState).freeList =
        st.freeList := rfl
    obtain ⟨hb2, hb3⟩ := grow_result_whole hC hlt h2b h2mem h2fl
    refine ⟨hfst, ?_, ?_, ?_⟩
    · rw [heq]
    · rw [heq]
      exact hb2
    · rw [heq]
      exact hb3

/-- Witness for C3 on the fresh arena with request 8: growth succeeds with
chunk 16 KiB, carves block 0, advances the break to 16384, and the returned
block is allocated and off the free list. -/
theorem C3_grow_witness :
    (8 : Nat) ≤ HEAP_SIZE ∧ initState.brk ≤ HEAP_SIZE ∧
    ((HEAP_SIZE < initState.brk + max (8 + HEADER_SIZE) (1024 * 16) →
       grow_heap initState 8 = (none, initState)) ∧
     (initState.brk + max (8 + HEADER_SIZE) (1024 * 16) ≤ HEAP_SIZE →
       (grow_heap initState 8).1 = some initState.brk ∧
       (grow_heap initState 8).2.brk =
         initState.brk + max (8 + HEADER_SIZE) (1024 * 16) ∧
       ((grow_heap initState 8).2.mem initState.brk).free = false ∧
       ∃ D, ChainOk (grow_heap initState 8).2 (grow_heap initState 8).2.freeList D ∧
         initState.brk ∉ D)) :=
  ⟨by decide, by decide,
   C3_grow ChainOk.nil (by simp) (by decide) (by decide)⟩

/-- Counterexample to C3 as stated. First: for `n = 2^64 - 16` from the
fresh arena, the spec chunk `max(n + HEADER_SIZE, 16 KiB)` exceeds the
remaining capacity, so growth must report out-of-memory — but the `size_t`
computation of `n + HEADER_SIZE` wraps to 8, the chunk becomes 16 KiB, and
the code succeeds, advancing the break only to 16384.  Second: for
`n = 2^64 - 32` at break 16384 (the state after one `HmmAlloc(8)`), the spec
formula again demands out-of-memory, but the wrapping `uintptr_t` comparison
of line 109 evaluates `16384 + (2^64 - 8)` as 16376, growth succeeds, and —
against "advances the break by chunk_size" — the wrapped advance of line 123
moves the break backwards to 16376.  Third: in a state whose free-list chain
already contains the offset at the break, the "returned block is not on the
free list" part fails — growth returns block 0 allocated while 0 is still
reachable in the chain (head 32, whose `next` is 0). -/
theorem C3_cex :
    ((grow_heap initState (M64 - 16)).1 = some 0 ∧
     HEAP_SIZE < initState.brk + max ((M64 - 16) + HEADER_SIZE) (1024 * 16) ∧
     (grow_heap initState (M64 - 16)).2.brk = 16384) ∧
    ((grow_heap c1a (M64 - 32)).1 = some 16384 ∧
     c1a.brk = 16384 ∧
     HEAP_SIZE < c1a.brk + max ((M64 - 32) + HEADER_SIZE) (1024 * 16) ∧
     (grow_heap c1a (M64 - 32)).2.brk = 16376) ∧
    ((grow_heap cexGrowState 8).1 = some 0 ∧
     ((grow_heap cexGrowState 8).2.mem 0).free = false ∧
     (grow_heap cexGrowState 8).2.freeList = some 32 ∧
     ((grow_heap cexGrowState 8).2.mem 32).next = some 0) := by decide

/-- C4 (confirmed): `find_free_block` scans the free list linearly from the
head; the first block that is free and large enough is unlinked (predecessor
repointed via `unlink`, which updates the list head when the match is the
head) and handed to the splitter, and the scan's result is that block; if no
block qualifies, the call falls through to `grow_heap`. -/
theorem C4_first_fit {st : HeapState} {L : List Nat} {req : Nat}
    (hC : ChainOk st st.freeList L) (hnd : L.Nodup) (hlen : L.length < FUEL) :
    ((∀ x ∈ L, ¬((st.mem x).free = true ∧ req ≤ (st.mem x).size)) →
      find_free_block st req = grow_heap st req) ∧
    (∀ M b R, L = M ++ b :: R →
      (∀ x ∈ M, ¬((st.mem x).free = true ∧ req ≤ (st.mem x).size)) →
      (st.mem b).free = true → req ≤ (st.mem b).size →
      find_free_block st req =
        (some b, split_block (unlink st (lastOr none M) b) b req) ∧
      ChainOk (unlink st (lastOr none M) b)
        (unlink st (lastOr none M) b).freeList (M ++ R)) := by
  constructor
  · intro hmiss
    exact find_scan_miss hC FUEL none hmiss hlen
  · intro M b R hdec hmiss hbf hbs
    have hml : M.length < FUEL := by
      have h1 : M.length ≤ (M ++ b :: R).length := by
        rw [List.length_append]
        omega
      rw [← hdec] at h1
      omega
    refine ⟨find_scan_hit ⟨hbf, hbs⟩ M FUEL none st.freeList (hdec ▸ hC) hmiss hml, ?_⟩
    exact unlink_chain (hdec ▸ hC) (hdec ▸ hnd)

/-- Witness for C4 on a two-block free list with request 16: the head block
(size 8) is skipped, the second block (size 64) is taken and unlinked. -/
theorem C4_first_fit_witness :
    [0, 100].Nodup ∧ [0, 100].length < FUEL ∧
    ¬((twoFreeState.mem 0).free = true ∧ 16 ≤ (twoFreeState.mem 0).size) ∧
    (twoFreeState.mem 100).free = true ∧ 16 ≤ (twoFreeState.mem 100).size ∧
    (find_free_block twoFreeState 16 =
      (some 100, split_block (unlink twoFreeState (lastOr none [0]) 100) 100 16) ∧
     ChainOk (unlink twoFreeState (lastOr none [0]) 100)
       (unlink twoFreeState (lastOr none [0]) 100).freeList ([0] ++ [])) :=
  ⟨by decide, by decide, by decide, by decide, by decide,
   (C4_first_fit twoFreeState_chain (by decide) (by decide)).2 [0] 100 [] rfl
     (by decide) (by decide) (by decide)⟩

/-- C5 (corrected): under the no-wrap hypotheses — block size a `size_t`
value, `requested + HEADER_SIZE + WORD` and the new header offset below
`2^64` — `split_block` divides exactly when
`block.size ≥ requested + HEADER_SIZE + WORD`: it writes the remainder
header at `b + HEADER_SIZE + requested` with size
`block.size - requested - HEADER_SIZE`, flagged free, head-inserts it (its
`next` is the old list head), and truncates the original block's size to the
request, keeping its free flag; otherwise the state is unchanged.  Split
writes only the two headers at `b` and `b + HEADER_SIZE + requested`, so a
header whose 24-byte range is disjoint from both written ranges is left
untouched — the untouched-headers clause is stated for exactly those, since
the source's struct writes clobber any header that byte-overlaps them.
The unrestricted claim is refuted by `C5_cex`. -/
theorem C5_split {st : HeapState} {b req : Nat}
    (hb : (st.mem b).size < M64) (hreq : req + HEADER_SIZE + WORD < M64)
    (hnb : b + HEADER_SIZE + req < M64) :
    ((st.mem b).size < req + HEADER_SIZE + WORD → split_block st b req = st) ∧
    (req + HEADER_SIZE + WORD ≤ (st.mem b).size →
      (split_block st b req).mem (b + HEADER_SIZE + req) =
        ⟨(st.mem b).size - req - HEADER_SIZE, st.freeList, true⟩ ∧
      (split_block st b req).freeList = some (b + HEADER_SIZE + req) ∧
      ((split_block st b req).mem b).size = req ∧
      ((split_block st b req).mem b).free = (st.mem b).free ∧
      (∀ x, (x + HEADER_SIZE ≤ b ∨ b + HEADER_SIZE ≤ x) →
        (x + HEADER_SIZE ≤ b + HEADER_SIZE + req ∨
          b + HEADER_SIZE + req + HEADER_SIZE ≤ x) →
        (split_block st b req).mem x = st.mem x)) := by
  have hH : (0 : Nat) < HEADER_SIZE := by norm_num [HEADER_SIZE]
  refine ⟨fun hlt => split_spec_neg hreq hlt, fun hge => ?_⟩
  obtain ⟨h1, h2, h3, h4⟩ := split_effect hb hreq hnb hge
  refine ⟨h2, h1, ?_, ?_, ?_⟩
  · rw [h3]
  · rw [h3]
  · intro x hx1 hx2
    exact h4 x (by omega) (by omega)

/-- Witness for C5 on a free block of size 64 at offset 100 with request 8:
the split triggers and both clauses hold. -/
theorem C5_split_witness :
    (twoFreeState.mem 100).size < M64 ∧ 8 + HEADER_SIZE + WORD < M64 ∧
    100 + HEADER_SIZE + 8 < M64 ∧
    (((twoFreeState.mem 100).size < 8 + HEADER_SIZE + WORD →
        split_block twoFreeState 100 8 = twoFreeState) ∧
     (8 + HEADER_SIZE + WORD ≤ (twoFreeState.mem 100).size →
        (split_block twoFreeState 100 8).mem (100 + HEADER_SIZE + 8) =
          ⟨(twoFreeState.mem 100).size - 8 - HEADER_SIZE, twoFreeState.freeList, true⟩ ∧
        (split_block twoFreeState 100 8).freeList = some (100 + HEADER_SIZE + 8) ∧
        ((split_block twoFreeState 100 8).mem 100).size = 8 ∧
        ((split_block twoFreeState 100 8).mem 100).free = (twoFreeState.mem 100).free ∧
        (∀ x, (x + HEADER_SIZE ≤ 100 ∨ 100 + HEADER_SIZE ≤ x) →
          (x + HEADER_SIZE ≤ 100 + HEADER_SIZE + 8 ∨
            100 + HEADER_SIZE + 8 + HEADER_SIZE ≤ x) →
          (split_block twoFreeState 100 8).mem x = twoFreeState.mem x))) :=
  ⟨by decide, by decide, by decide, C5_split (by decide) (by decide) (by decide)⟩

/-- Counterexample to C5 as stated. First: for `requested = 2^64 - 24` on a
block of size 40 at offset 0, the trigger condition
`block.size ≥ requested + HEADER_SIZE + WORD` fails in exact arithmetic, yet
the `size_t` comparison wraps to `40 ≥ 8` and the code splits: the remainder
header's wrapped offset `0 + 24 + (2^64 - 24)` is the block's own offset 0
(the very same address in the source, so the struct writes land where the
model puts them), and the block's size ends up `2^64 - 24` — the "left whole
with its size unchanged" clause is violated.  Second: for a block whose
header occupies the top 24 bytes of the address space (offset `2^64 - 24`)
with size 48 and `requested = 8`, the trigger condition holds exactly, but
the "new header at `requested` past the end of the original header" is
written at the wrapped offset 8 — byte-disjoint from the original header —
not at `(2^64 - 24) + HEADER_SIZE + 8`. -/
theorem C5_cex :
    ((cexSplitState.mem 0).size < (M64 - 24) + HEADER_SIZE + WORD ∧
     ((split_block cexSplitState 0 (M64 - 24)).mem 0).size = M64 - 24 ∧
     (split_block cexSplitState 0 (M64 - 24)).freeList = some 0 ∧
     (cexSplitState.mem 0).size ≠ M64 - 24) ∧
    (8 + HEADER_SIZE + WORD ≤ (cexSplitState2.mem (M64 - 24)).size ∧
     (split_block cexSplitState2 (M64 - 24) 8).freeList = some 8 ∧
     ((split_block cexSplitState2 (M64 - 24) 8).mem 8).free = true ∧
     (8 : Nat) ≠ (M64 - 24) + HEADER_SIZE + 8) := by decide

/-- C6 (corrected): over every sequence of `HmmAlloc` and `HmmFree` calls
from the fresh arena — with no precondition on the arguments at all — the
break stays within `0 ≤ brk ≤ HEAP_SIZE` (the lower bound is inherent to the
`Nat` model) and `HmmFree` never changes it; an `HmmAlloc` never decreases
it provided the request is at most the arena size.  The original claim that
the break never decreases across any operation is refuted by `C6_cex`: the
wrapping `uintptr_t` out-of-memory comparison and break advance let a
near-`SIZE_MAX` request move the break backwards. -/
theorem C6_break_bounds {st : HeapState} (hR : Reached st) :
    st.brk ≤ HEAP_SIZE ∧
    (∀ n, (HmmAlloc st n).2.brk ≤ HEAP_SIZE ∧
      (n ≤ HEAP_SIZE → st.brk ≤ (HmmAlloc st n).2.brk)) ∧
    (∀ p, (HmmFree st p).brk = st.brk) := by
  have hb : st.brk ≤ HEAP_SIZE := by
    induction hR with
    | init => exact Nat.zero_le _
    | @alloc st n hR ih =>
      exact le_trans (HmmAlloc_brk st n) (max_le ih (le_refl _))
    | @free st p hR ih =>
      rw [HmmFree_brk]
      exact ih
  refine ⟨hb, fun n => ⟨?_, fun hn => HmmAlloc_brk_mono hb hn⟩,
    fun p => HmmFree_brk st p⟩
  exact le_trans (HmmAlloc_brk st n) (max_le hb (le_refl _))

/-- Witness for C6 at the fresh arena. -/
theorem C6_break_bounds_witness :
    initState.brk ≤ HEAP_SIZE ∧
    (∀ n, (HmmAlloc initState n).2.brk ≤ HEAP_SIZE ∧
      (n ≤ HEAP_SIZE → initState.brk ≤ (HmmAlloc initState n).2.brk)) ∧
    (∀ p, (HmmFree initState p).brk = initState.brk) :=
  C6_break_bounds Reached.init

/-- Counterexample to C6 as stated: after `HmmAlloc(8)` the break is 16384.
The request `2^64 - 32` then passes the source's wrapped out-of-memory
comparison — line 109 computes `16384 + (2^64 - 8)` in `uintptr_t`, which
wraps to 16376, not above the arena end — and the equally wrapped break
advance of line 123 moves the break backwards to 16376: the break decreased
across a successful allocation. -/
theorem C6_cex :
    (HmmAlloc initState 8).1 = some 24 ∧ c1a.brk = 16384 ∧
    (HmmAlloc c1a (M64 - 32)).1 = some 16408 ∧
    (HmmAlloc c1a (M64 - 32)).2.brk = 16376 ∧ (16376 : Nat) < 16384 := by decide

/-- C7 (corrected): for every sequence of `HmmAlloc` calls from the fresh
arena with each successful request at most the arena size `HEAP_SIZE`, the
free-list chain consists of blocks flagged free, and the header of every
outstanding (handed-out) payload pointer is flagged allocated and appears
nowhere in that chain.  The original claim over sequences that also contain
`HmmFree` calls, or with larger requests, is refuted by `C7_cex`. -/
theorem C7_freelist {st : HeapState} {live : List Nat} (hR : ReachedA st live) :
    ∃ C, ChainOk st st.freeList C ∧
      (∀ b ∈ C, (st.mem b).free = true) ∧
      (∀ p ∈ live, (st.mem (p - HEADER_SIZE)).free = false ∧ p - HEADER_SIZE ∉ C) := by
  obtain ⟨C, hI⟩ := reachedA_inv hR
  refine ⟨C, hI.1, hI.2.2.1, fun p hp => ⟨(hI.2.2.2.1 p hp).2, fun hin => ?_⟩⟩
  exact chain_not_live_hdr hI _ hin p hp rfl

/-- Witness for C7 at the state after two 8-byte allocations. -/
theorem C7_freelist_witness :
    ReachedA c1b [56, 24] ∧
    (∃ C, ChainOk c1b c1b.freeList C ∧
      (∀ b ∈ C, (c1b.mem b).free = true) ∧
      (∀ p ∈ [56, 24], (c1b.mem (p - HEADER_SIZE)).free = false ∧
        p - HEADER_SIZE ∉ C)) := by
  have h1 : ReachedA c1a [24] :=
    ReachedA.allocOk ReachedA.init (by decide) (by decide)
  have h2 : ReachedA c1b [56, 24] :=
    ReachedA.allocOk h1 (by decide) (by decide)
  exact ⟨h2, C7_freelist h2⟩

/-- Counterexample to C7 as stated. First trace (preconditions respected):
`HmmAlloc(8), HmmAlloc(8), HmmFree(24), HmmAlloc(8)` — the final allocation
splits the merged block and writes the remainder header exactly on top of
the live second allocation's header at offset 32, then head-inserts it: the
final chain is the single offset 32, which is the header of the outstanding
payload 56.  Second trace: the single call `HmmAlloc(2^64 - 24)` succeeds
(payload 24) and leaves the chain as the single offset 0 — the returned
block's own header — flagged allocated (`free = false`) while in the chain. -/
theorem C7_cex :
    ((HmmAlloc initState 8).1 = some 24 ∧
     (HmmAlloc c1a 8).1 = some 56 ∧
     (HmmAlloc c7d 8).1 = some 24 ∧
     (HmmAlloc c7d 8).2.freeList = some 32 ∧
     ((HmmAlloc c7d 8).2.mem 32).next = none ∧
     (56 : Nat) - HEADER_SIZE = 32) ∧
    ((HmmAlloc initState (M64 - 24)).1 = some 24 ∧
     (HmmAlloc initState (M64 - 24)).2.freeList = some 0 ∧
     ((HmmAlloc initState (M64 - 24)).2.mem 0).next = none ∧
     ((HmmAlloc initState (M64 - 24)).2.mem 0).free = false ∧
     (24 : Nat) - HEADER_SIZE = 0) := by decide

/-- C8 (corrected): in any state satisfying the allocator invariant, if
`HmmAlloc(n)` with `1 ≤ n ≤ HEAP_SIZE` succeeds returning `p`,
then after `HmmFree(p)` the free list's head block is free with size `≥ n`,
and a subsequent `HmmAlloc(n)` succeeds — returning that block's payload —
without moving the break.  The original unrestricted claim is refuted by
`C8_cex`. -/
theorem C8_roundtrip {st : HeapState} {C live : List Nat} {n p : Nat}
    (hI : Inv st C live) (hn1 : 1 ≤ n) (hnM : n ≤ HEAP_SIZE)
    (hp : (HmmAlloc st n).1 = some p) :
    ∃ b,
      (HmmFree (HmmAlloc st n).2 (some p)).freeList = some b ∧
      ((HmmFree (HmmAlloc st n).2 (some p)).mem b).free = true ∧
      n ≤ ((HmmFree (HmmAlloc st n).2 (some p)).mem b).size ∧
      (HmmAlloc (HmmFree (HmmAlloc st n).2 (some p)) n).1 =
        some (b + HEADER_SIZE) ∧
      (HmmAlloc (HmmFree (HmmAlloc st n).2 (some p)) n).2.brk =
        (HmmFree (HmmAlloc st n).2 (some p)).brk := by
  have hH : HEADER_SIZE = 24 := rfl
  have hM32 : MIN_BLOCK_SIZE = 32 := MIN_BLOCK_SIZE_eq
  have hM64 : M64 = 18446744073709551616 := by norm_num [M64]
  have hHeap : HEAP_SIZE = 1048576 := rfl
  have hn0 : n ≠ 0 := by omega
  obtain ⟨C1, hI1, hnot, hsz, hbrk⟩ := (alloc_preserv hI hn0 hnM).2 p hp
  have hfe : HmmFree (HmmAlloc st n).2 (some p) =
      merge_free_blocks
        (add_to_free_list
          (setHeader (HmmAlloc st n).2 (p - HEADER_SIZE)
            { (HmmAlloc st n).2.mem (p - HEADER_SIZE) with free := true })
          (p - HEADER_SIZE)) := rfl
  have h2hdr : (add_to_free_list
        (setHeader (HmmAlloc st n).2 (p - HEADER_SIZE)
          { (HmmAlloc st n).2.mem (p - HEADER_SIZE) with free := true })
        (p - HEADER_SIZE)).mem (p - HEADER_SIZE) =
      ⟨((HmmAlloc st n).2.mem (p - HEADER_SIZE)).size,
        (HmmAlloc st n).2.freeList, true⟩ := by
    rw [add_to_free_list_mem_self, setHeader_mem_self, setHeader_freeList]
  have h2mem : ∀ x, x ≠ p - HEADER_SIZE →
      (add_to_free_list
        (setHeader (HmmAlloc st n).2 (p - HEADER_SIZE)
          { (HmmAlloc st n).2.mem (p - HEADER_SIZE) with free := true })
        (p - HEADER_SIZE)).mem x = (HmmAlloc st n).2.mem x := by
    intro x hx
    rw [add_to_free_list_mem_ne _ _ hx, setHeader_mem_ne _ _ _ hx]
  have h2fl : (add_to_free_list
        (setHeader (HmmAlloc st n).2 (p - HEADER_SIZE)
          { (HmmAlloc st n).2.mem (p - HEADER_SIZE) with free := true })
        (p - HEADER_SIZE)).freeList = some (p - HEADER_SIZE) :=
    add_to_free_list_freeList _ _
  have h2brk : (add_to_free_list
        (setHeader (HmmAlloc st n).2 (p - HEADER_SIZE)
          { (HmmAlloc st n).2.mem (p - HEADER_SIZE) with free := true })
        (p - HEADER_SIZE)).brk = (HmmAlloc st n).2.brk := by
    rw [add_to_free_list_brk, setHeader_brk]
  obtain ⟨hfl, hfree, hgrow, ⟨R, hcR⟩, hbrkM⟩ :=
    premerge_head hI1 hnot h2hdr h2mem h2fl h2brk
  rw [hfe]
  have hnA : n ≤ ALIGN n := align_ge (by omega)
  refine ⟨p - HEADER_SIZE, hfl, hfree, by omega, ?_, ?_⟩
  · have hqual : ((merge_free_blocks
        (add_to_free_list
          (setHeader (HmmAlloc st n).2 (p - HEADER_SIZE)
            { (HmmAlloc st n).2.mem (p - HEADER_SIZE) with free := true })
          (p - HEADER_SIZE))).mem (p - HEADER_SIZE)).free = true ∧
        ALIGN n ≤ ((merge_free_blocks
        (add_to_free_list
          (setHeader (HmmAlloc st n).2 (p - HEADER_SIZE)
            { (HmmAlloc st n).2.mem (p - HEADER_SIZE) with free := true })
          (p - HEADER_SIZE))).mem (p - HEADER_SIZE)).size :=
      ⟨hfree, by omega⟩
    have hfb2 : find_free_block (merge_free_blocks
        (add_to_free_list
          (setHeader (HmmAlloc st n).2 (p - HEADER_SIZE)
            { (HmmAlloc st n).2.mem (p - HEADER_SIZE) with free := true })
          (p - HEADER_SIZE))) (ALIGN n) =
        (some (p - HEADER_SIZE),
         split_block (unlink (merge_free_blocks
          (add_to_free_list
            (setHeader (HmmAlloc st n).2 (p - HEADER_SIZE)
              { (HmmAlloc st n).2.mem (p - HEADER_SIZE) with free := true })
            (p - HEADER_SIZE))) (lastOr none []) (p - HEADER_SIZE))
          (p - HEADER_SIZE) (ALIGN n)) :=
      find_scan_hit hqual [] FUEL none _ hcR (by simp) (by decide)
    have halloc := alloc_eq_some_of_find hn0 (by rw [hfb2])
    rw [halloc]
  · have hqual : ((merge_free_blocks
        (add_to_free_list
          (setHeader (HmmAlloc st n).2 (p - HEADER_SIZE)
            { (HmmAlloc st n).2.mem (p - HEADER_SIZE) with free := true })
          (p - HEADER_SIZE))).mem (p - HEADER_SIZE)).free = true ∧
        ALIGN n ≤ ((merge_free_blocks
        (add_to_free_list
          (setHeader (HmmAlloc st n).2 (p - HEADER_SIZE)
            { (HmmAlloc st n).2.mem (p - HEADER_SIZE) with free := true })
          (p - HEADER_SIZE))).mem (p - HEADER_SIZE)).size :=
      ⟨hfree, by omega⟩
    have hfb2 : find_free_block (merge_free_blocks
        (add_to_free_list
          (setHeader (HmmAlloc st n).2 (p - HEADER_SIZE)
            { (HmmAlloc st n).2.mem (p - HEADER_SIZE) with free := true })
          (p - HEADER_SIZE))) (ALIGN n) =
        (some (p - HEADER_SIZE),
         split_block (unlink (merge_free_blocks
          (add_to_free_list
            (setHeader (HmmAlloc st n).2 (p - HEADER_SIZE)
              { (HmmAlloc st n).2.mem (p - HEADER_SIZE) with free := true })
            (p - HEADER_SIZE))) (lastOr none []) (p - HEADER_SIZE))
          (p - HEADER_SIZE) (ALIGN n)) :=
      find_scan_hit hqual [] FUEL none _ hcR (by simp) (by decide)
    have halloc := alloc_eq_some_of_find hn0 (by rw [hfb2])
    rw [halloc]
    show (setHeader (find_free_block (merge_free_blocks
        (add_to_free_list
          (setHeader (HmmAlloc st n).2 (p - HEADER_SIZE)
            { (HmmAlloc st n).2.mem (p - HEADER_SIZE) with free := true })
          (p - HEADER_SIZE))) (ALIGN n)).2 (p - HEADER_SIZE)
        { (find_free_block (merge_free_blocks
          (add_to_free_list
            (setHeader (HmmAlloc st n).2 (p - HEADER_SIZE)
              { (HmmAlloc st n).2.mem (p - HEADER_SIZE) with free := true })
            (p - HEADER_SIZE))) (ALIGN n)).2.mem (p - HEADER_SIZE) with
          free := false }).brk = _
    rw [setHeader_brk, hfb2]
    show (split_block (unlink (merge_free_blocks
        (add_to_free_list
          (setHeader (HmmAlloc st n).2 (p - HEADER_SIZE)
            { (HmmAlloc st n).2.mem (p - HEADER_SIZE) with free := true })
          (p - HEADER_SIZE))) (lastOr none []) (p - HEADER_SIZE))
        (p - HEADER_SIZE) (ALIGN n)).brk = _
    rw [split_block_brk, unlink_brk]

/-- Witness for C8 on the fresh arena with `n = 8`: allocation returns 24,
the free leaves block 0 (size 16360) at the head, and the reallocation
returns 24 again without moving the break. -/
theorem C8_roundtrip_witness :
    Inv initState [] [] ∧ (1 : Nat) ≤ 8 ∧ (8 : Nat) ≤ HEAP_SIZE ∧
    (HmmAlloc initState 8).1 = some 24 ∧
    (∃ b,
      (HmmFree (HmmAlloc initState 8).2 (some 24)).freeList = some b ∧
      ((HmmFree (HmmAlloc initState 8).2 (some 24)).mem b).free = true ∧
      8 ≤ ((HmmFree (HmmAlloc initState 8).2 (some 24)).mem b).size ∧
      (HmmAlloc (HmmFree (HmmAlloc initState 8).2 (some 24)) 8).1 =
        some (b + HEADER_SIZE) ∧
      (HmmAlloc (HmmFree (HmmAlloc initState 8).2 (some 24)) 8).2.brk =
        (HmmFree (HmmAlloc initState 8).2 (some 24)).brk) :=
  ⟨inv_initState, by decide, by decide, by decide,
   C8_roundtrip inv_initState (by decide) (by decide) (by decide)⟩

/-- Counterexample to C8 as stated. First: from the fresh arena,
`HmmAlloc(2^64 - 1)` succeeds (payload 24), yet after `HmmFree(24)` the free
list is the single block 0 of size 16360 — far below `n` — so no block of
size `≥ n` exists.  Second: in a state with a wrapped-size free block (of
the kind `C1_cex` and `C6_cex` show the public interface itself produces),
`HmmAlloc(8)` succeeds, but after the free the merger's wrapped additions
collapse the head block to size 0, and the subsequent `HmmAlloc(8)` fails
outright. -/
theorem C8_cex :
    ((HmmAlloc initState (M64 - 1)).1 = some 24 ∧
     (HmmFree (HmmAlloc initState (M64 - 1)).2 (some 24)).freeList = some 0 ∧
     ((HmmFree (HmmAlloc initState (M64 - 1)).2 (some 24)).mem 0).next = none ∧
     ((HmmFree (HmmAlloc initState (M64 - 1)).2 (some 24)).mem 0).size = 16360 ∧
     (16360 : Nat) < M64 - 1) ∧
    ((HmmAlloc cexRTState 8).1 = some 24 ∧
     (HmmFree (HmmAlloc cexRTState 8).2 (some 24)).freeList = some 0 ∧
     ((HmmFree (HmmAlloc cexRTState 8).2 (some 24)).mem 0).next = none ∧
     ((HmmFree (HmmAlloc cexRTState 8).2 (some 24)).mem 0).size = 0 ∧
     (HmmAlloc (HmmFree (HmmAlloc cexRTState 8).2 (some 24)) 8).1 = none) := by
  decide

/-- C9 (confirmed): `HmmAlloc(0)` returns the null result and the unchanged
state, for every state — without consulting the free list or the break — and
the very same `none` is what an out-of-memory failure returns (here for a
request of twice the arena size on the fresh arena), so the two cases are
indistinguishable to the caller. -/
theorem C9_zero_alloc :
    (∀ st : HeapState, HmmAlloc st 0 = (none, st)) ∧
    (HmmAlloc initState (2 * HEAP_SIZE)).1 = none := by
  constructor
  · intro st
    unfold HmmAlloc
    rw [if_pos rfl]
  · decide

/-- C10 (confirmed): whenever `HmmAlloc` with a positive request returns
null, the resulting state — every header, the break, and the free-list
head — is exactly the pre-call state. -/
theorem C10_failed_alloc {st : HeapState} {n : Nat} (hn : 0 < n)
    (h : (HmmAlloc st n).1 = none) : (HmmAlloc st n).2 = st :=
  alloc_none_state h

/-- Witness for C10: an out-of-memory request of twice the arena size on the
fresh arena fails and leaves the state unchanged. -/
theorem C10_failed_alloc_witness :
    0 < 2 * HEAP_SIZE ∧ (HmmAlloc initState (2 * HEAP_SIZE)).1 = none ∧
    (HmmAlloc initState (2 * HEAP_SIZE)).2 = initState :=
  ⟨by decide, by decide, C10_failed_alloc (by decide) (by decide)⟩

end HMM
